import Mathlib

/-!
Shallow embedding of the Teamcenter syslog parsing core
(`src/parse/...` — `parseTeamcenterLog` and its helper collectors) and
verification of the frozen claims about it.

Conventions:
  * JS strings are Lean `String`s; all matching is done on `String.toList`
    (`List Char`) so that everything reduces in the kernel.
  * JS regular expressions used by the source are hand-determinised: each
    matcher mirrors the backtracking behaviour of the concrete regex on the
    concrete pattern (comments note the pattern and the determinisation).
  * Line indices are `Nat`, 0-based, exactly as in the source
    (`ctx.start.line - 1` / plain loop counters).
  * Loops with a moving cursor are embedded as fuel recursion with fuel
    `lines.length`, which is always sufficient (each step advances the
    cursor by at least one).
-/

namespace TCSyslog

/-- The JavaScript `\s` character class (WhiteSpace ∪ LineTerminator),
used by `String.prototype.trim` and the `\s` of the source's regexes. -/
def jsWs (c : Char) : Bool :=
  c = ' ' || c = '\t' || c = '\n' || c = '\r' || c = '\x0b' || c = '\x0c' ||
  c.toNat = 0xa0 || c.toNat = 0x1680 ||
  (0x2000 ≤ c.toNat && c.toNat ≤ 0x200a) ||
  c.toNat = 0x2028 || c.toNat = 0x2029 || c.toNat = 0x202f ||
  c.toNat = 0x205f || c.toNat = 0x3000 || c.toNat = 0xfeff

def jsTrimStartL (cs : List Char) : List Char := cs.dropWhile jsWs

def jsTrimEndL (cs : List Char) : List Char := (cs.reverse.dropWhile jsWs).reverse

def jsTrimL (cs : List Char) : List Char := jsTrimEndL (jsTrimStartL cs)

/-- JS `String.prototype.trim`. -/
def jsTrim (s : String) : String := ⟨jsTrimL s.toList⟩

/-- JS `String.prototype.trimStart`. -/
def jsTrimStart (s : String) : String := ⟨jsTrimStartL s.toList⟩

/-- `pre` occurs at the head of `l`. -/
def prefixAt (pre l : List Char) : Bool := decide (l.take pre.length = pre)

/-- JS `String.prototype.startsWith` (no position argument). -/
def sStartsWith (s pre : String) : Bool := prefixAt pre.toList s.toList

def isAsciiAlpha (c : Char) : Bool :=
  (65 ≤ c.toNat && c.toNat ≤ 90) || (97 ≤ c.toNat && c.toNat ≤ 122)

def isAsciiDigit (c : Char) : Bool := 48 ≤ c.toNat && c.toNat ≤ 57

/-- ASCII uppercase map; JS `toUpperCase` restricted to `[A-Za-z]`, the only
characters the source ever uppercases (the token matched by `^[A-Za-z]+`). -/
def asciiUpper (c : Char) : Char :=
  if 97 ≤ c.toNat && c.toNat ≤ 122 then Char.ofNat (c.toNat - 32) else c

def asciiLower (c : Char) : Char :=
  if 65 ≤ c.toNat && c.toNat ≤ 90 then Char.ofNat (c.toNat + 32) else c

/-- Case-insensitive `prefixAt` (ASCII folding; the source's `/.../i` regexes
are only ever required to match ASCII patterns). -/
def ciPrefixAt (pre l : List Char) : Bool :=
  decide ((l.take pre.length).map asciiLower = pre.map asciiLower)

/-- JS `content.split(/\r?\n/)`: each `\n`, optionally preceded by `\r`,
separates lines; a lone `\r` stays inside its line. -/
def splitLinesAux : List Char → List Char → List (List Char)
  | [], acc => [acc.reverse]
  | '\n' :: rest, acc => acc.reverse :: splitLinesAux rest []
  | '\r' :: '\n' :: rest, acc => acc.reverse :: splitLinesAux rest []
  | c :: rest, acc => splitLinesAux rest (c :: acc)

def splitLines (text : String) : List String :=
  (splitLinesAux text.toList []).map fun cs => ⟨cs⟩

/-- `lines[i] ?? ""` — every collector reads lines through this. -/
def getLine (lines : List String) (i : Nat) : String := lines.getD i ""

/-! ### Inline-SQL heuristic (`isInlineSqlText`) -/

/-- `INLINE_SQL_KEYWORDS` from the source. -/
def INLINE_SQL_KEYWORDS : List String :=
  ["SELECT", "INSERT", "UPDATE", "DELETE", "MERGE", "WITH", "TRUNCATE",
   "CREATE", "ALTER", "DROP", "CALL", "EXEC", "BEGIN", "COMMIT", "CONNECT",
   "ROLLBACK"]

/-- `working.match(/^SQL\s*[:>\-=]?\s*/i)` followed by slicing the match off:
case-insensitive `SQL`, then greedy ws, then at most one of `: > - =`, then
greedy ws. When `SQL` is not a (case-insensitive) prefix the regex does not
match and the text is unchanged. -/
def sqlStrip (cs : List Char) : List Char :=
  if ciPrefixAt ['S', 'Q', 'L'] cs then
    let r := (cs.drop 3).dropWhile jsWs
    let r2 := match r with
      | c :: t => if c = ':' || c = '>' || c = '-' || c = '=' then t else r
      | [] => r
    r2.dropWhile jsWs
  else cs

/-- `isInlineSqlText` from the source, line for line:
trim; reject empty; strip the optional `SQL` prefix; take the leading
`[A-Za-z]+` token; require its uppercase form to be a keyword and the token
to equal its own uppercase form. -/
def isInlineSqlText (text : String) : Bool :=
  let working0 := jsTrim text
  if working0 = "" then false
  else
    let cs := sqlStrip working0.toList
    let token := cs.takeWhile isAsciiAlpha
    if token = [] then false
    else
      let upper := token.map asciiUpper
      if !INLINE_SQL_KEYWORDS.contains ⟨upper⟩ then false
      else if token ≠ upper then false
      else true

/-- The inline-SQL predicate as the spec states it (claim C5): after
stripping an optional `SQL[:>-=]?` prefix (case-insensitive, with its
surrounding whitespace, as in the source regex), the leading alphabetic
token must be a member of the fixed keyword set and must be written exactly
in all-caps. -/
def isInlineSqlSpec (text : String) : Bool :=
  let cs := sqlStrip (jsTrimL text.toList)
  let token := cs.takeWhile isAsciiAlpha
  decide (token ≠ [] ∧
    (⟨token.map asciiUpper⟩ : String) ∈ INLINE_SQL_KEYWORDS ∧
    token = token.map asciiUpper)

/-! ### Deterministic lexing helpers for the source's regexes -/

/-- Consume one expected character. -/
def lexChar (c : Char) : List Char → Option (List Char)
  | x :: rest => if x = c then some rest else none
  | [] => none

/-- Consume an exact literal. -/
def lexLit (lit : List Char) (cs : List Char) : Option (List Char) :=
  if prefixAt lit cs then some (cs.drop lit.length) else none

/-- Consume a literal case-insensitively (for `/.../i` regexes). -/
def lexLitCI (lit : String) (cs : List Char) : Option (List Char) :=
  if ciPrefixAt lit.toList cs then some (cs.drop lit.toList.length) else none

/-- `\s+`: at least one whitespace char, then the maximal run (greedy; the
following regex element always begins with a non-ws char at the call sites,
so the greedy run is the unique parse). -/
def skipWs1 : List Char → Option (List Char)
  | c :: rest => if jsWs c then some (rest.dropWhile jsWs) else none
  | [] => none

/-- `[0-9]{k}`: exactly `k` digits (captured, remainder). -/
def takeDigitsExact : Nat → List Char → Option (List Char × List Char)
  | 0, cs => some ([], cs)
  | k + 1, c :: rest =>
    if isAsciiDigit c then
      (takeDigitsExact k rest).map fun p => (c :: p.1, p.2)
    else none
  | _ + 1, [] => none

/-- `\d+` / `[0-9]+`: at least one digit, maximal run. -/
def takeDigits1 (cs : List Char) : Option (List Char × List Char) :=
  let ds := cs.takeWhile isAsciiDigit
  if ds = [] then none else some (ds, cs.drop ds.length)

/-- `(?:\.[0-9]+)?`: greedy optional fraction; consumed only when a `.` is
directly followed by a digit (otherwise the group matches empty — if the
leftover `.` then breaks the following element the regex fails overall,
exactly as in the determinised callers). -/
def matchFraction (cs : List Char) : List Char × List Char :=
  match cs with
  | '.' :: rest =>
    let ds := rest.takeWhile isAsciiDigit
    if ds = [] then ([], cs) else ('.' :: ds, rest.dropWhile isAsciiDigit)
  | _ => ([], cs)

def occursAt (needle hay : List Char) (i : Nat) : Bool := prefixAt needle (hay.drop i)

/-- First position of the substring `sub` in `cs` (for the lazy `(.*?)`
followed by a literal). -/
def findSub (sub cs : List Char) : Option Nat :=
  (List.range (cs.length + 1)).find? fun i => occursAt sub cs i

/-- JS `hay.indexOf(needle, start)` as an `Option` (the call sites only use
non-empty needles, where `none` corresponds to `-1`). -/
def jsIndexOf (hay needle : String) (start : Nat) : Option Nat :=
  (List.range (hay.toList.length + 1)).find? fun i =>
    decide (start ≤ i) && occursAt needle.toList hay.toList i

/-! ### A tiny anchored-pattern interpreter

Each of the source's regexes, as used on its concrete pattern, is
deterministic except for the `\s*(.+?)\s*-\s*(.*)$` tail of
`LOG_LINE_REGEX` (handled separately by `idSplit`): every greedy run is
followed by an element that cannot occur inside the run, so the greedy
parse is the unique parse.  A pattern is therefore a list of items matched
left to right; capturing items push one capture each. -/

inductive PatItem where
  | lit : List Char → PatItem          -- exact literal
  | litCI : List Char → PatItem        -- literal under `/i`
  | ch : Char → PatItem                -- single literal character
  | ws0 : PatItem                      -- `\s*`
  | ws1 : PatItem                      -- `\s+`
  | digsE : Nat → PatItem              -- `[0-9]{k}`, capturing
  | digs1 : PatItem                    -- `\d+`, capturing
  | fracOpt : PatItem                  -- `(?:\.[0-9]+)?`, capturing (maybe empty)
  | notCh1 : Char → PatItem            -- `[^c]+`, capturing
  | nonWs1 : PatItem                   -- `\S+`, capturing
  | upToLit : List Char → PatItem      -- lazy `(.*?)` then a literal, capturing
  | tail0 : PatItem                    -- `(.*)$`, capturing
  | altLit : List (List Char) → PatItem -- `(A|B|…)` literal alternation, capturing
  deriving Repr, DecidableEq

def stepItem : PatItem → List Char → Option (List (List Char) × List Char)
  | .lit l, cs => (lexLit l cs).map fun r => ([], r)
  | .litCI l, cs => if ciPrefixAt l cs then some ([], cs.drop l.length) else none
  | .ch c, cs => (lexChar c cs).map fun r => ([], r)
  | .ws0, cs => some ([], cs.dropWhile jsWs)
  | .ws1, cs => (skipWs1 cs).map fun r => ([], r)
  | .digsE k, cs => (takeDigitsExact k cs).map fun p => ([p.1], p.2)
  | .digs1, cs => (takeDigits1 cs).map fun p => ([p.1], p.2)
  | .fracOpt, cs => some ([(matchFraction cs).1], (matchFraction cs).2)
  | .notCh1 c, cs =>
    let tok := cs.takeWhile fun x => x ≠ c
    if tok = [] then none else some ([tok], cs.drop tok.length)
  | .nonWs1, cs =>
    let tok := cs.takeWhile fun x => !jsWs x
    if tok = [] then none else some ([tok], cs.drop tok.length)
  | .upToLit sub, cs =>
    (findSub sub cs).map fun k => ([cs.take k], cs.drop (k + sub.length))
  | .tail0, cs => some ([cs], [])
  | .altLit ls, cs =>
    (ls.findSome? fun l => if prefixAt l cs then some l else none).map fun l =>
      ([l], cs.drop l.length)

def runPat : List PatItem → List Char → Option (List (List Char) × List Char)
  | [], cs => some ([], cs)
  | it :: rest, cs =>
    match stepItem it cs with
    | none => none
    | some (caps, cs1) =>
      match runPat rest cs1 with
      | none => none
      | some (caps2, cs2) => some (caps ++ caps2, cs2)

/-! ### The structured log-line matcher (`LOG_LINE_REGEX`)

`/^(INFO|DEBUG|NOTE|WARN|ERROR|FATAL)\s*-\s*([0-9]{4}\/[0-9]{2}\/[0-9]{2}-[0-9]{2}:[0-9]{2}:[0-9]{2}(?:\.[0-9]+)?)\s+UTC\s*-\s*(.+?)\s*-\s*(.*)$/` -/

def LEVELS : List String := ["INFO", "DEBUG", "NOTE", "WARN", "ERROR", "FATAL"]

/-- `\s*(.+?)\s*-\s*(.*)$` applied to the text after `UTC\s*-`; returns the
raw `(.+?)` and `(.*)` captures.  The leading greedy `\s*` prefers the
latest start `s` for the lazy `(.+?)`; position `s` admits a match iff some
`-` occurs strictly after `s`; the lazy group then ends at the first `-`
after it, the separating `\s*` soaking up the whitespace run directly
before that `-` (but the group keeps at least one character). -/
def idSplit (cs0 : List Char) : Option (List Char × List Char) :=
  let maxRun := (cs0.takeWhile jsWs).length
  let dashes := (List.range cs0.length).filter fun i => 1 ≤ i && cs0.getD i ' ' = '-'
  match dashes.getLast? with
  | none => none
  | some dMax =>
    let s := min maxRun (dMax - 1)
    let cs := cs0.drop s
    match (cs.drop 1).findIdx? fun c => c = '-' with
    | none => none
    | some k =>
      let d1 := k + 1
      let pre := cs.take d1
      let core := jsTrimEndL pre
      let idRaw := if core = [] then pre.take 1 else core
      let msgRaw := (cs.drop (d1 + 1)).dropWhile jsWs
      some (idRaw, msgRaw)

def logLinePat : List PatItem :=
  [.altLit (LEVELS.map String.toList), .ws0, .ch '-', .ws0,
   .digsE 4, .ch '/', .digsE 2, .ch '/', .digsE 2, .ch '-',
   .digsE 2, .ch ':', .digsE 2, .ch ':', .digsE 2, .fracOpt,
   .ws1, .lit "UTC".toList, .ws0, .ch '-']

/-- `LOG_LINE_REGEX.exec(lineText)`: the four raw captures
(level, timestamp, id, message). -/
def logLineMatch (line : String) : Option (String × String × String × String) :=
  match runPat logLinePat line.toList with
  | none => none
  | some (caps, rest) =>
    match idSplit rest with
    | none => none
    | some (idRaw, msgRaw) =>
      let g := fun i => caps.getD i []
      let ts := g 1 ++ '/' :: g 2 ++ '/' :: g 3 ++ '-' ::
                g 4 ++ ':' :: g 5 ++ ':' :: g 6 ++ g 7
      some (⟨g 0⟩, ⟨ts⟩, ⟨idRaw⟩, ⟨msgRaw⟩)

/-! ### Workflow handler / access check / journal matchers -/

def enterPat : List PatItem :=
  [.lit "-->".toList, .ws1, .litCI "ENTER".toList, .ws1,
   .litCI "Function".toList, .ws1, .ch '"', .notCh1 '"', .ch '"',
   .ws1, .ch (Char.ofNat 123), .ws0, .ch '(', .litCI "File".toList,
   .ws1, .ch '[', .upToLit [']', ')']]

/-- `/^-->\s+ENTER\s+Function\s+"([^"]+)"\s+\{\s*\(File\s+\[(.*?)\]\)/i`
(the brace is `Char.ofNat 123`): the raw name and file-path captures. -/
def enterMatch (raw : String) : Option (String × String) :=
  match runPat enterPat raw.toList with
  | some (caps, _) => some (⟨caps.getD 0 []⟩, ⟨caps.getD 1 []⟩)
  | none => none

def leavePat : List PatItem :=
  [.lit "<--".toList, .ws1, .litCI "LEAVE".toList, .ws1,
   .litCI "Function".toList, .ws1, .ch '"', .notCh1 '"', .ch '"']

/-- `/^<--\s+LEAVE\s+Function\s+"([^"]+)"/i`: the captured function name. -/
def leaveExtract (raw : String) : Option String :=
  match runPat leavePat raw.toList with
  | some (caps, _) => some ⟨caps.getD 0 []⟩
  | none => none

/-- `leavePattern.test(raw)`. -/
def isLeaveLine (raw : String) : Bool := (leaveExtract raw).isSome

def accessPat : List PatItem :=
  [.litCI "AM_check_priv".toList, .ws0, .ch '(', .notCh1 ')', .ch ')',
   .ws0, .litCI "on".toList, .ws0, .nonWs1]

/-- `/^AM_check_priv\s*\(([^)]+)\)\s*on\s*(\S+)/i`: mode and target. -/
def accessMatch (raw : String) : Option (String × String) :=
  match runPat accessPat raw.toList with
  | some (caps, _) => some (⟨caps.getD 0 []⟩, ⟨caps.getD 1 []⟩)
  | none => none

def traceRowPat : List PatItem :=
  [.ws0, .digs1, .ws1, .digs1, .ws1, .digs1, .fracOpt,
   .ws1, .digs1, .ws1, .digs1, .ws1, .digs1, .ws1, .tail0]

/-- `/^\s*(\d+)\s+(\d+)\s+([0-9]+(?:\.[0-9]+)?)\s+(\d+)\s+(\d+)\s+(\d+)\s+(.*)$/`
(journal hierarchy trace row): the seven raw captures (the third is the
integer part joined with its optional fraction). -/
def traceRowMatch (raw : String) : Option (List (List Char)) :=
  match runPat traceRowPat raw.toList with
  | some (caps, _) =>
    let g := fun i => caps.getD i []
    some [g 0, g 1, g 2 ++ g 3, g 4, g 5, g 6, g 7]
  | none => none

/-- `/^([^=]+)=(.*)$/` on a trimmed env-section body line:
key (trimmed) and value (trimmed). -/
def envKV (t : String) : Option (String × String) :=
  let cs := t.toList
  let k := cs.takeWhile fun c => c ≠ '='
  if k = [] then none
  else
    match cs.drop k.length with
    | '=' :: rest => some (jsTrim ⟨k⟩, jsTrim ⟨rest⟩)
    | _ => none

/-- `trimmed.split(/\s+/)` for a non-empty trimmed string: the maximal
non-whitespace runs. -/
def wordsWs (cs : List Char) : List (List Char) :=
  (cs.splitOnP jsWs).filter fun w => w ≠ []

/-- `body.split(/\s{2,}/)`: runs of two or more whitespace characters
separate segments; a single whitespace stays inside its segment. -/
def splitWs2Aux : Nat → List Char → List Char → List (List Char)
  | _, [], acc => [acc.reverse]
  | 0, _, acc => [acc.reverse]
  | fuel + 1, c :: rest, acc =>
    if jsWs c then
      match rest with
      | c2 :: _ =>
        if jsWs c2 then acc.reverse :: splitWs2Aux fuel (rest.dropWhile jsWs) []
        else splitWs2Aux fuel rest (c :: acc)
      | [] => splitWs2Aux fuel rest (c :: acc)
    else splitWs2Aux fuel rest (c :: acc)

def splitWs2 (cs : List Char) : List (List Char) := splitWs2Aux cs.length cs []

/-- Non-NaN-ness of JS `Number(s)` for a string: empty (after trim) is 0;
otherwise a decimal literal with optional sign/fraction/exponent, a signed
`Infinity`, or an unsigned `0x`/`0o`/`0b` literal. Used only as the
`Number.isNaN` guard of the journal-row collector. -/
def decCheck (cs : List Char) : Bool :=
  let int := cs.takeWhile isAsciiDigit
  let rest := cs.drop int.length
  let step : Bool × List Char :=
    match rest with
    | '.' :: r =>
      let fr := r.takeWhile isAsciiDigit
      if int = [] && fr = [] then (false, rest)
      else (true, r.drop fr.length)
    | _ => (decide (int ≠ []), rest)
  if !step.1 then false
  else
    match step.2 with
    | [] => true
    | e :: r =>
      if e = 'e' || e = 'E' then
        let r2 := match r with
          | c :: t => if c = '+' || c = '-' then t else r
          | [] => r
        let ds := r2.takeWhile isAsciiDigit
        ds ≠ [] && r2.drop ds.length = []
      else false

def decSigned (cs : List Char) : Bool :=
  match cs with
  | c :: t => if c = '+' || c = '-' then decCheck t else decCheck cs
  | [] => false

def jsNumberValid (s : String) : Bool :=
  let cs := jsTrimL s.toList
  match cs with
  | [] => true
  | _ =>
    if cs = "Infinity".toList || cs = "+Infinity".toList || cs = "-Infinity".toList then
      true
    else
      match cs with
      | '0' :: x :: rest =>
        if x = 'x' || x = 'X' then
          rest ≠ [] && rest.all fun c =>
            isAsciiDigit c || (97 ≤ c.toNat && c.toNat ≤ 102) || (65 ≤ c.toNat && c.toNat ≤ 70)
        else if x = 'o' || x = 'O' then
          rest ≠ [] && rest.all fun c => 48 ≤ c.toNat && c.toNat ≤ 55
        else if x = 'b' || x = 'B' then
          rest ≠ [] && rest.all fun c => c = '0' || c = '1'
        else decSigned cs
      | _ => decSigned cs

/-! ### The data model (§3 of the spec; plain JS objects in the source) -/

structure HeaderLine where
  line : Nat
  text : String
  deriving Repr, DecidableEq

structure Header where
  line : Nat
  lines : List HeaderLine
  deriving Repr, DecidableEq

structure SystemInfoEntry where
  line : Nat
  key : String
  value : String
  deriving Repr, DecidableEq

structure EnvEntry where
  line : Nat
  key : String
  value : String
  deriving Repr, DecidableEq

structure EnvSection where
  line : Nat
  entries : List EnvEntry
  deriving Repr, DecidableEq

structure DllEntry where
  line : Nat
  path : String
  version : String
  address : String
  size : String
  hash : String
  date : String
  deriving Repr, DecidableEq

structure DllSection where
  line : Nat
  entries : List DllEntry
  deriving Repr, DecidableEq

structure SqlRow where
  line : Nat
  text : String
  deriving Repr, DecidableEq

structure SqlDump where
  line : Nat
  endLine : Nat
  rows : List SqlRow
  deriving Repr, DecidableEq

inductive JournalType where
  | allFunctions
  | topLevel
  | summary
  deriving Repr, DecidableEq

/-- Numeric-looking segments are kept as the raw captured strings
(`segments[k] ?? null` in the source); only the NaN guard on the first one
is semantic. -/
structure JournalRow where
  line : Nat
  text : String
  percent : Option String
  totalElapsed : Option String
  totalCpu : Option String
  dbTrips : Option String
  callCount : Option String
  average : Option String
  functionName : String
  deriving Repr, DecidableEq

structure JournalSection where
  type : JournalType
  line : Nat
  endLine : Nat
  rows : List JournalRow
  summary : String
  deriving Repr, DecidableEq

/-- Numeric captures are kept as the captured digit strings; the source
wraps them in `Number(...)`, which no claim inspects (`callCount` and
`calls` both come from capture 5, as in the source). -/
structure TraceRow where
  line : Nat
  totalPercent : String
  parentPercent : String
  time : String
  dbTrips : String
  callCount : String
  calls : String
  depth : String
  routine : String
  raw : String
  text : String
  deriving Repr, DecidableEq

structure JournalHierarchyTrace where
  line : Nat
  endLine : Nat
  version : Option String
  header : Option String
  rows : List TraceRow
  deriving Repr, DecidableEq

structure AccessCheck where
  line : Nat
  raw : String
  mode : String
  target : String
  deriving Repr, DecidableEq

structure WorkflowHandler where
  line : Nat
  endLine : Nat
  functionName : String
  filePath : String
  raw : String
  deriving Repr, DecidableEq

/-- `pomStats` / `endSessions` / `truncated` entries: `{ line }`. -/
structure Marker where
  line : Nat
  deriving Repr, DecidableEq

structure LogLine where
  line : Nat
  level : String
  timestamp : String
  id : String
  message : String
  levelStart : Nat
  levelEnd : Nat
  timestampStart : Option Nat
  timestampEnd : Option Nat
  idStart : Option Nat
  idEnd : Option Nat
  messageStart : Option Nat
  messageEnd : Option Nat
  isInlineSql : Bool
  deriving Repr, DecidableEq

/-- An element of `collectInlineSqlLines`'s result (`{ line, text }`). -/
structure InlineHit where
  line : Nat
  text : String
  deriving Repr, DecidableEq

structure InlineSqlLine where
  line : Nat
  text : String
  fromLog : Bool
  deriving Repr, DecidableEq

structure ParseResult where
  lines : List String
  header : Option Header
  systemInfo : List SystemInfoEntry
  envSections : List EnvSection
  dllSections : List DllSection
  sqlDumps : List SqlDump
  journalSections : List JournalSection
  journalHierarchyTraces : List JournalHierarchyTrace
  accessChecks : List AccessCheck
  workflowHandlers : List WorkflowHandler
  pomStats : List Marker
  endSessions : List Marker
  truncated : List Marker
  logLines : List LogLine
  inlineSqlLines : List InlineSqlLine
  parseErrors : List String
  deriving Repr, DecidableEq

/-! ### Forward search helper

Several scanners search for the first line at or after `start` satisfying a
predicate (`while (cursor < lines.length) { if (p) break; cursor += 1 }`).
Fuel `lines.length` always suffices. -/

def findFromAux (p : String → Bool) (lines : List String) : Nat → Nat → Option Nat
  | 0, _ => none
  | fuel + 1, j =>
    if j < lines.length then
      if p (getLine lines j) then some j else findFromAux p lines fuel (j + 1)
    else none

def findFrom (p : String → Bool) (lines : List String) (start : Nat) : Option Nat :=
  findFromAux p lines lines.length start

/-- JS `array.join(" ")`. -/
def joinSpace : List String → String
  | [] => ""
  | x :: t => t.foldl (fun acc y => acc ++ " " ++ y) x

/-- `s.slice(k)` for ASCII `k` (character count = UTF-16 count on the
prefixes used). -/
def sliceFrom (s : String) (k : Nat) : String := ⟨s.toList.drop k⟩

/-! ### Collectors (the heuristic scanners of the source) -/

/-- One candidate banner line of `collectHeader`
(`lines[i]?.startsWith(pre)`). -/
def headerCandidate (lines : List String) (i : Nat) (pre : String) : List HeaderLine :=
  match lines.get? i with
  | some l => if sStartsWith l pre then [{ line := i, text := l }] else []
  | none => []

/-- `collectHeader`. -/
def collectHeader (lines : List String) : Option Header :=
  match headerCandidate lines 0 "***" ++
      headerCandidate lines 1 "*** system log created by" with
  | [] => none
  | h :: t => some { line := h.line, lines := h :: t }

def SYSTEM_INFO_PREFIXES : List String :=
  ["Node Name", "Machine type", "OS", "# Processors", "Memory",
   "Total Swap", "Free  Swap", "Machine supports", "Running"]

/-- `value.replace(/^[\s:-]+/, "")`. -/
def stripLeadWsColonDash (s : String) : String :=
  ⟨s.toList.dropWhile fun c => jsWs c || c = ':' || c = '-'⟩

/-- `collectSystemInfo`. -/
def collectSystemInfo (lines : List String) : List SystemInfoEntry :=
  (List.range lines.length).filterMap fun i =>
    if getLine lines i = "" then none
    else
      match SYSTEM_INFO_PREFIXES.find? (fun p => sStartsWith (getLine lines i) p) with
      | none => none
      | some p =>
        some { line := i, key := p,
               value := jsTrim (stripLeadWsColonDash (sliceFrom (getLine lines i) p.toList.length)) }

/-- The body loop of `CollectingVisitor.visitEnvSection` (offset starts at 1,
stops at the first blank / non-`key=value` line or EOF). -/
def envEntriesAux (lines : List String) (startLine : Nat) : Nat → Nat → List EnvEntry
  | 0, _ => []
  | fuel + 1, offset =>
    if startLine + offset < lines.length then
      if jsTrim (getLine lines (startLine + offset)) = "" then []
      else
        match envKV (jsTrim (getLine lines (startLine + offset))) with
        | none => []
        | some kv =>
          { line := startLine + offset, key := kv.1, value := kv.2 }
            :: envEntriesAux lines startLine fuel (offset + 1)
    else []

/-- Modelled from the spec: the generated ANTLR lexer/parser that produce the
`envSection` contexts are not under `src/`; the grammar (in `src/`) starts an
env section at a line that is exactly `TC environment variables:` and the
spec says the section "starts at" that title line.  The body collection is
`visitEnvSection` from `src/`, embedded in `envEntriesAux`. -/
def isEnvSectionStart (s : String) : Bool := s = "TC environment variables:"

def collectEnvSections (lines : List String) : List EnvSection :=
  (List.range lines.length).filterMap fun i =>
    if isEnvSectionStart (getLine lines i) then
      some { line := i, entries := envEntriesAux lines i lines.length 1 }
    else none

/-- One DLL table row: `path version address size hash date...` from the
whitespace-split parts (`date` joins the remaining parts). -/
def mkDllEntry (lineIdx : Nat) (parts : List (List Char)) : DllEntry :=
  { line := lineIdx,
    path := ⟨parts.getD 0 []⟩, version := ⟨parts.getD 1 []⟩,
    address := ⟨parts.getD 2 []⟩, size := ⟨parts.getD 3 []⟩,
    hash := ⟨parts.getD 4 []⟩,
    date := joinSpace ((parts.drop 5).map fun w => (⟨w⟩ : String)) }

/-- The body loop of `CollectingVisitor.visitDllSection` (offset starts at 2,
skipping title and separator; stops at blank / short line or EOF). -/
def dllEntriesAux (lines : List String) (startLine : Nat) : Nat → Nat → List DllEntry
  | 0, _ => []
  | fuel + 1, offset =>
    if startLine + offset < lines.length then
      if jsTrim (getLine lines (startLine + offset)) = "" then []
      else if (wordsWs (jsTrimL (getLine lines (startLine + offset)).toList)).length < 6 then []
      else
        mkDllEntry (startLine + offset)
          (wordsWs (jsTrimL (getLine lines (startLine + offset)).toList))
          :: dllEntriesAux lines startLine fuel (offset + 1)
    else []

/-- Modelled from the spec: as for env sections, the ANTLR context start is
missing from `src/`; per the grammar and §4.4 a DLL section starts at the
exact title line followed by a separator line. -/
def isDllSectionStart (lines : List String) (i : Nat) : Bool :=
  getLine lines i = "Versions of DLLs are:" && sStartsWith (getLine lines (i + 1)) "="

def collectDllSections (lines : List String) : List DllSection :=
  (List.range lines.length).filterMap fun i =>
    if isDllSectionStart lines i then
      some { line := i, entries := dllEntriesAux lines i lines.length 2 }
    else none

/-- `/^[_-]+$/`, the SQL dump separator-line test. -/
def isSepOnly (t : String) : Bool :=
  t.toList ≠ [] && t.toList.all fun c => c = '_' || c = '-'

/-- The inner `while` of `collectSqlSections`: starting at `cursor`, collect
rows until an `END SQL_PROFILE_DUMP` line (returning `(rows, cursor', some
endLine)`) or EOF (returning `(rows, cursor', none)`). -/
def sqlBodyAux (lines : List String) : Nat → Nat → List SqlRow × Nat × Option Nat
  | 0, cursor => ([], cursor, none)
  | fuel + 1, cursor =>
    if cursor < lines.length then
      if sStartsWith (jsTrim (getLine lines cursor)) "END SQL_PROFILE_DUMP" then
        ([], cursor + 1, some cursor)
      else
        match sqlBodyAux lines fuel (cursor + 1) with
        | (rows, nxt, cl) =>
          if jsTrim (getLine lines cursor) ≠ "" &&
              !sStartsWith (jsTrim (getLine lines cursor)) "Nr Calls" &&
              !isSepOnly (jsTrim (getLine lines cursor)) then
            ({ line := cursor, text := getLine lines cursor } :: rows, nxt, cl)
          else (rows, nxt, cl)
    else ([], cursor, none)

/-- The outer `while` of `collectSqlSections`; on falling off EOF without an
end marker, `endLine = Math.max(section.line, cursor - 1)`. -/
def collectSqlAux (lines : List String) : Nat → Nat → List SqlDump
  | 0, _ => []
  | fuel + 1, index =>
    if index < lines.length then
      if sStartsWith (jsTrim (getLine lines index)) "START SQL_PROFILE_DUMP" then
        match sqlBodyAux lines lines.length (index + 1) with
        | (rows, nxt, cl) =>
          { line := index, endLine := cl.getD (max index (nxt - 1)), rows := rows }
            :: collectSqlAux lines fuel nxt
      else collectSqlAux lines fuel (index + 1)
    else []

def collectSqlSections (lines : List String) : List SqlDump :=
  collectSqlAux lines lines.length 0

/-- Is the character at index `k` (if any) `\s` — for `(?:\s|$)`. -/
def wsOrEndAt (cs : List Char) (k : Nat) : Bool :=
  match cs.drop k with
  | [] => true
  | c :: _ => jsWs c

/-- `patterns.find(...)` of `collectJournalSections`: the more specific
start markers are tested before the generic `START JOURNALLED_TIMES`
(`(?:\s|$)` behind the generic one). -/
def journalPatternOf (t : String) : Option JournalType :=
  if ciPrefixAt "START JOURNALLED_TIMES_IN_ALL_FUNCTIONS".toList t.toList then
    some .allFunctions
  else if ciPrefixAt "START JOURNALLED_TIMES_IN_TOP_LEVEL_FUNCTIONS".toList t.toList then
    some .topLevel
  else if ciPrefixAt "START JOURNALLED_TIMES".toList t.toList && wsOrEndAt t.toList 22 then
    some .summary
  else none

def journalEndTest (jt : JournalType) (t : String) : Bool :=
  match jt with
  | .allFunctions => ciPrefixAt "END JOURNALLED_TIMES_IN_ALL_FUNCTIONS".toList t.toList
  | .topLevel => ciPrefixAt "END JOURNALLED_TIMES_IN_TOP_LEVEL_FUNCTIONS".toList t.toList
  | .summary => ciPrefixAt "END JOURNALLED_TIMES".toList t.toList && wsOrEndAt t.toList 20

/-- The segment split of a (trimmed) `@*` row: strip the `@*` prefix and its
following whitespace (`replace(/^@\*\s*/, "")`), split on runs of two or
more whitespace characters, trim each segment, drop the empty ones. -/
def journalSegments (t : String) : List (List Char) :=
  ((splitWs2 ((t.toList.drop 2).dropWhile jsWs)).map fun w => jsTrimL w).filter fun w => w ≠ []

/-- `segments.length > 6 ? segments.slice(6).join(" ") : segments[segments.length - 1]`,
trimmed. -/
def journalFunctionName (segs : List (List Char)) : String :=
  jsTrim
    (if segs.length > 6 then joinSpace ((segs.drop 6).map fun w => (⟨w⟩ : String))
     else ⟨segs.getLastD []⟩)

/-- One row attempt of `collectJournalRows`. -/
def journalRowOf (lines : List String) (j : Nat) : Option JournalRow :=
  if !sStartsWith (jsTrim (getLine lines j)) "@*" then none
  else if journalSegments (jsTrim (getLine lines j)) = [] then none
  else if !jsNumberValid ⟨(journalSegments (jsTrim (getLine lines j))).getD 0 []⟩ then none
  else if journalFunctionName (journalSegments (jsTrim (getLine lines j))) = "" then none
  else
    some { line := j, text := getLine lines j,
           percent := ((journalSegments (jsTrim (getLine lines j))).get? 0).map
             fun w => (⟨w⟩ : String),
           totalElapsed := ((journalSegments (jsTrim (getLine lines j))).get? 1).map
             fun w => (⟨w⟩ : String),
           totalCpu := ((journalSegments (jsTrim (getLine lines j))).get? 2).map
             fun w => (⟨w⟩ : String),
           dbTrips := ((journalSegments (jsTrim (getLine lines j))).get? 3).map
             fun w => (⟨w⟩ : String),
           callCount := ((journalSegments (jsTrim (getLine lines j))).get? 4).map
             fun w => (⟨w⟩ : String),
           average := ((journalSegments (jsTrim (getLine lines j))).get? 5).map
             fun w => (⟨w⟩ : String),
           functionName := journalFunctionName (journalSegments (jsTrim (getLine lines j))) }

/-- `collectJournalRows(lines, start, end)` — the `@*`-row scan over the
inclusive index range. -/
def collectJournalRows (lines : List String) (start endIdx : Nat) : List JournalRow :=
  (List.range' start (endIdx + 1 - start)).filterMap fun j => journalRowOf lines j

/-- The digest loop of `collectJournalSections`: scan lines `i+1 ..
min(endLine, i+8)` (inclusive — this includes the END marker line when it is
close enough), keep up to 3 non-empty candidates not starting with `@*` or
`START `, join with single spaces, trim. -/
def journalDigest (lines : List String) (i endLine : Nat) : String :=
  let window := (List.range' (i + 1) (min endLine (i + 8) + 1 - (i + 1))).map
    fun j => jsTrim (getLine lines j)
  let picked := (window.filter fun c =>
    c ≠ "" && !sStartsWith c "@*" && !sStartsWith c "START ").take 3
  jsTrim (joinSpace picked)

/-- `collectJournalSections`.  The outer `for` advances one line at a time
(it never skips past a section), so this is a per-line `filterMap`. -/
def journalEndLine (lines : List String) (jt : JournalType) (i : Nat) : Nat :=
  (findFrom (fun s => journalEndTest jt (jsTrim s)) lines (i + 1)).getD
    (max i (lines.length - 1))

def collectJournalSections (lines : List String) : List JournalSection :=
  (List.range lines.length).filterMap fun i =>
    if sStartsWith (jsTrim (getLine lines i)) "START JOURNALLED_TIMES" then
      match journalPatternOf (jsTrim (getLine lines i)) with
      | none => none
      | some jt =>
        some { type := jt, line := i, endLine := journalEndLine lines jt i,
               rows := if jt = .summary then [] else
                 collectJournalRows lines (i + 1) (journalEndLine lines jt i - 1),
               summary := journalDigest lines i (journalEndLine lines jt i) }
    else none

/-- `/^START JOURNAL_HIERARCHY_TRACE\b/i` — `\b` is satisfied by the end of
the string or any non-word character. -/
def notWordAt (cs : List Char) (k : Nat) : Bool :=
  match cs.drop k with
  | [] => true
  | c :: _ => !(isAsciiAlpha c || isAsciiDigit c || c = '_')

def isTraceStart (t : String) : Bool :=
  ciPrefixAt "START JOURNAL_HIERARCHY_TRACE".toList t.toList && notWordAt t.toList 29

def isTraceEnd (t : String) : Bool :=
  ciPrefixAt "END JOURNAL_HIERARCHY_TRACE".toList t.toList && notWordAt t.toList 27

/-- `trimmed.replace(/^START JOURNAL_HIERARCHY_TRACE\s*/i, "").trim() || null`
(only evaluated on lines passing `isTraceStart`, where the replace fires). -/
def traceVersionOf (t : String) : Option String :=
  let v := jsTrim ⟨(t.toList.drop 29).dropWhile jsWs⟩
  if v = "" then none else some v

def mkTraceRow (line : Nat) (raw t : String) (caps : List (List Char)) : TraceRow :=
  let g := fun i => (⟨caps.getD i []⟩ : String)
  { line := line, totalPercent := g 0, parentPercent := g 1, time := g 2,
    dbTrips := g 3, callCount := g 4, calls := g 4, depth := g 5,
    routine := jsTrim (g 6), raw := raw, text := t }

/-- The body `while` of `collectJournalHierarchyTraces`: records the first
`%Total` header line, collects regex-matching rows, stops at the end marker
or EOF.  Returns `(header, rows, cursor', some endLine | none)`. -/
def traceBodyAux (lines : List String) :
    Nat → Nat → Option String → Option String × List TraceRow × Nat × Option Nat
  | 0, cursor, header => (header, [], cursor, none)
  | fuel + 1, cursor, header =>
    if cursor < lines.length then
      if isTraceEnd (jsTrim (getLine lines cursor)) then (header, [], cursor, some cursor)
      else if header.isNone && sStartsWith (jsTrim (getLine lines cursor)) "%Total" then
        traceBodyAux lines fuel (cursor + 1) (some (jsTrim (getLine lines cursor)))
      else
        match traceRowMatch (getLine lines cursor) with
        | some caps =>
          match traceBodyAux lines fuel (cursor + 1) header with
          | (h', rows, nxt, e) =>
            (h', mkTraceRow cursor (getLine lines cursor) (jsTrim (getLine lines cursor)) caps
              :: rows, nxt, e)
        | none => traceBodyAux lines fuel (cursor + 1) header
    else (header, [], cursor, none)

def buildTrace (lines : List String) (index : Nat) : JournalHierarchyTrace :=
  match traceBodyAux lines lines.length (index + 1) none with
  | (hdr, rows, _, e) =>
    { line := index,
      endLine := e.getD (lines.length - 1),
      version := traceVersionOf (jsTrim (getLine lines index)),
      header := hdr,
      rows := rows }

/-- The outer `for` of `collectJournalHierarchyTraces`:
`index = Math.max(index, endLine)` and then `index += 1`. -/
def traceAux (lines : List String) : Nat → Nat → List JournalHierarchyTrace
  | 0, _ => []
  | fuel + 1, index =>
    if index < lines.length then
      if isTraceStart (jsTrim (getLine lines index)) then
        buildTrace lines index ::
          traceAux lines fuel (max index (buildTrace lines index).endLine + 1)
      else traceAux lines fuel (index + 1)
    else []

def collectJournalHierarchyTraces (lines : List String) : List JournalHierarchyTrace :=
  traceAux lines lines.length 0

/-- `collectAccessChecks`. -/
def collectAccessChecks (lines : List String) : List AccessCheck :=
  (List.range lines.length).filterMap fun i =>
    match accessMatch (getLine lines i) with
    | none => none
    | some mt =>
      some { line := i, raw := getLine lines i, mode := jsTrim mt.1, target := jsTrim mt.2 }

/-- `collectWorkflowHandlers`: one handler per ENTER line; the span closes
at the first line matching the LEAVE pattern (any function name — the
captured name is not compared), else collapses to the enter line. -/
def collectWorkflowHandlers (lines : List String) : List WorkflowHandler :=
  (List.range lines.length).filterMap fun i =>
    match enterMatch (getLine lines i) with
    | none => none
    | some nmfp =>
      some { line := i,
             endLine := (findFrom isLeaveLine lines (i + 1)).getD i,
             functionName := jsTrim nmfp.1, filePath := jsTrim nmfp.2,
             raw := getLine lines i }

/-- `collectInlineSqlLines`. -/
def collectInlineSqlLines (lines : List String) : List InlineHit :=
  (List.range lines.length).filterMap fun i =>
    if jsTrim (getLine lines i) = "" then none
    else if sStartsWith (jsTrim (getLine lines i)) "START SQL_PROFILE_DUMP" ||
        sStartsWith (jsTrim (getLine lines i)) "END SQL_PROFILE_DUMP" then
      none
    else if isInlineSqlText (jsTrim (getLine lines i)) then
      some { line := i, text := getLine lines i }
    else none

/-- Field assembly of one `collectLogLines` entry (offset arithmetic written
with `Option` for the JS `-1`/`null` sentinels; character counts are used
for `.length`). -/
def mkLogLine (lineText : String) (i : Nat)
    (caps : String × String × String × String) : LogLine :=
  let levelText := caps.1
  let timestampText := caps.2.1
  let idRaw := caps.2.2.1
  let messageRaw := caps.2.2.2
  let levelStartOpt := jsIndexOf lineText levelText 0
  let levelStart := levelStartOpt.getD 0
  let levelEnd := match levelStartOpt with
    | some s => s + levelText.toList.length
    | none => levelText.toList.length
  let timestampStartOpt :=
    if timestampText ≠ "" then jsIndexOf lineText timestampText levelEnd else none
  let timestampEnd := timestampStartOpt.map fun s => s + timestampText.toList.length
  let idValue := jsTrim idRaw
  let idRawIndex :=
    if idValue ≠ "" then jsIndexOf lineText idRaw (timestampEnd.getD 0) else none
  let idLeadingSpaces := idRaw.toList.length - (jsTrimStart idRaw).toList.length
  let idStart := idRawIndex.map fun ix => ix + idLeadingSpaces
  let idEnd := idStart.map fun s => s + idValue.toList.length
  let messageValue := jsTrim messageRaw
  let messageRawIndex :=
    if messageValue ≠ "" then
      jsIndexOf lineText messageRaw
        (match idRawIndex with
         | some ix => ix + idRaw.toList.length
         | none => timestampEnd.getD 0)
    else none
  let messageLeadingSpaces := messageRaw.toList.length - (jsTrimStart messageRaw).toList.length
  let messageStart := messageRawIndex.map fun ix => ix + messageLeadingSpaces
  let messageEnd := messageStart.map fun s => s + messageValue.toList.length
  { line := i, level := levelText, timestamp := timestampText,
    id := idValue, message := messageValue,
    levelStart := levelStart, levelEnd := levelEnd,
    timestampStart := timestampStartOpt, timestampEnd := timestampEnd,
    idStart := idStart, idEnd := idEnd,
    messageStart := messageStart, messageEnd := messageEnd,
    isInlineSql := isInlineSqlText messageValue }

/-- `collectLogLines`. -/
def collectLogLines (lines : List String) : List LogLine :=
  (List.range lines.length).filterMap fun i =>
    (logLineMatch (getLine lines i)).map fun caps => mkLogLine (getLine lines i) i caps

/-- Modelled from the spec: `pomStats` entries come from the ANTLR visitor
whose generated parser is not under `src/`; per the grammar and §4.4 this is
a single-line prefix match on `POM enquiries statistics:`. -/
def collectPomStats (lines : List String) : List Marker :=
  (List.range lines.length).filterMap fun i =>
    if sStartsWith (getLine lines i) "POM enquiries statistics:" then some { line := i }
    else none

/-- Modelled from the spec: `endSessions`, as above, is a single-line prefix
match on `@@@ End of session`. -/
def collectEndSessions (lines : List String) : List Marker :=
  (List.range lines.length).filterMap fun i =>
    if sStartsWith (getLine lines i) "@@@ End of session" then some { line := i }
    else none

def truncPat : List PatItem :=
  [.lit "(truncated".toList, .ws1, .digs1, .ws1, .lit "characters)".toList]

/-- Modelled from the spec: `truncated`, as above, matches the grammar rule
`'(truncated' WS+ DIGIT+ WS+ 'characters)' .*?` at the start of a line. -/
def collectTruncated (lines : List String) : List Marker :=
  (List.range lines.length).filterMap fun i =>
    if (runPat truncPat (getLine lines i).toList).isSome then some { line := i }
    else none

/-! ### Inline-SQL assembly and the parse entry point -/

def leLine (a b : InlineSqlLine) : Prop := a.line ≤ b.line

instance : DecidableRel leLine := fun a b => Nat.decLe a.line b.line

instance : IsTotal InlineSqlLine leLine := ⟨fun a b => Nat.le_total a.line b.line⟩

instance : IsTrans InlineSqlLine leLine := ⟨fun _ _ _ => Nat.le_trans⟩

/-- The `inlineSqlLines` assembly of `parseTeamcenterLog`: log-derived
entries (insertion order = ascending line, `text` is the message — never
nullish), then the heuristic hits whose line is not log-flagged, sorted
stably by `line` (the JS `sort` comparator `a.line - b.line`; keys are
pairwise distinct, so any stable sort gives the same list). -/
def inlineLogPart (lines : List String) : List InlineSqlLine :=
  ((collectLogLines lines).filter fun e => e.isInlineSql).map fun e =>
    { line := e.line, text := e.message, fromLog := true }

def inlineHeurPart (lines : List String) : List InlineSqlLine :=
  ((collectInlineSqlLines lines).filter fun item =>
    !((collectLogLines lines).any fun e => e.isInlineSql && e.line == item.line)).map
    fun item => { line := item.line, text := item.text, fromLog := false }

def buildInlineSqlLines (lines : List String) : List InlineSqlLine :=
  List.insertionSort leLine (inlineLogPart lines ++ inlineHeurPart lines)

/-- `parseTeamcenterLog`.

The grammar-assisted ANTLR pass (generated lexer/parser, not under `src/`)
is modelled from the spec (§4.5): its strict `sqlDump` rule requires both
markers and an exact header, and per §4.5/§9 the heuristic scanners are a
tolerant superset whose results are kept whenever the grammar pass
contributes nothing — so `sqlDumps` here is the `else` branch
(`result.sqlDumps = heuristicSql`) of the merge.  `envSections`,
`dllSections`, `pomStats`, `endSessions` and `truncated` are the
visitor-derived collections with their spec-modelled start detection; all
other collections are the heuristic overwrites from the source. -/
def parseTeamcenterLog (content : String) : ParseResult :=
  let lines := splitLines content
  { lines := lines,
    header := collectHeader lines,
    systemInfo := collectSystemInfo lines,
    envSections := collectEnvSections lines,
    dllSections := collectDllSections lines,
    sqlDumps := collectSqlSections lines,
    journalSections := collectJournalSections lines,
    journalHierarchyTraces := collectJournalHierarchyTraces lines,
    accessChecks := collectAccessChecks lines,
    workflowHandlers := collectWorkflowHandlers lines,
    pomStats := collectPomStats lines,
    endSessions := collectEndSessions lines,
    truncated := collectTruncated lines,
    logLines := collectLogLines lines,
    inlineSqlLines := buildInlineSqlLines lines,
    parseErrors := [] }

inductive ParseFailure where
  | notAString
  deriving Repr, DecidableEq

/-- The JS call boundary: `parseTeamcenterLog(content)` throws (a
`TypeError` from `content.split`) exactly when `content` is not a usable
string (`null`/`undefined`, modelled as `none`); for every actual string it
returns a result. -/
def parseDocument : Option String → Except ParseFailure ParseResult
  | none => .error .notAString
  | some s => .ok (parseTeamcenterLog s)

/-! ### Claim-side definitions (stated from the spec's words, to be compared
with the source embedding) -/

/-- The endLine claim C1 asserts: the nearest subsequent line matching the
LEAVE pattern *with the same function name*, else the enter line itself. -/
def specWorkflowEnd (lines : List String) (i : Nat) (name : String) : Nat :=
  (findFrom (fun s => leaveExtract s == some name) lines (i + 1)).getD i

/-- The digest claim C6 asserts: as `journalDigest`, but marker lines —
including the section's END marker — never contribute. -/
def specDigestC6 (lines : List String) (i endLine : Nat) : String :=
  let window := (List.range' (i + 1) (min endLine (i + 8) + 1 - (i + 1))).map
    fun j => jsTrim (getLine lines j)
  let picked := (window.filter fun c =>
    c ≠ "" && !sStartsWith c "@*" && !sStartsWith c "START " &&
      !ciPrefixAt "END JOURNALLED_TIMES".toList c.toList).take 3
  jsTrim (joinSpace picked)

/-! ### C2 — env section boundary -/

/-- Claim C2: on `"TC environment variables:\nTC_BIN=/opt/tc\n\nOTHER=ignored"`
parse yields exactly one `EnvSection`, at the title line, with the single
entry `TC_BIN = /opt/tc`; the blank line stops collection before `OTHER`. -/
theorem env_section_boundary :
    (parseTeamcenterLog "TC environment variables:\nTC_BIN=/opt/tc\n\nOTHER=ignored").envSections =
      [{ line := 0, entries := [{ line := 1, key := "TC_BIN", value := "/opt/tc" }] }] := by
  decide

/-! ### C4 — structured log field extraction -/

/-- Claim C4: the single line
`ERROR - 2021/11/22-10:15:30.123 UTC - NoID - Connection refused` yields
exactly one `LogLine` with the stated level/timestamp/id/message and
`levelStart = 0`, `levelEnd = 5`. -/
theorem log_line_extraction :
    ((parseTeamcenterLog
        "ERROR - 2021/11/22-10:15:30.123 UTC - NoID - Connection refused").logLines).map
      (fun e => (e.level, e.timestamp, e.id, e.message, e.levelStart, e.levelEnd)) =
    [("ERROR", "2021/11/22-10:15:30.123", "NoID", "Connection refused", 0, 5)] := by
  decide

/-! ### C10 — parse of the empty string -/

/-- Claim C10: `parse ""` has `lines = [""]`, a `null` header, and every
section/record collection empty. -/
theorem parse_empty_string :
    (parseTeamcenterLog "").lines = [""] ∧
    (parseTeamcenterLog "").header = none ∧
    (parseTeamcenterLog "").systemInfo = [] ∧
    (parseTeamcenterLog "").envSections = [] ∧
    (parseTeamcenterLog "").dllSections = [] ∧
    (parseTeamcenterLog "").sqlDumps = [] ∧
    (parseTeamcenterLog "").journalSections = [] ∧
    (parseTeamcenterLog "").journalHierarchyTraces = [] ∧
    (parseTeamcenterLog "").accessChecks = [] ∧
    (parseTeamcenterLog "").workflowHandlers = [] ∧
    (parseTeamcenterLog "").pomStats = [] ∧
    (parseTeamcenterLog "").endSessions = [] ∧
    (parseTeamcenterLog "").truncated = [] ∧
    (parseTeamcenterLog "").logLines = [] ∧
    (parseTeamcenterLog "").inlineSqlLines = [] := by
  decide

/-! ### C9 — failure only on a non-string argument -/

/-- Claim C9: the call boundary errors exactly on the non-string argument;
for every actual string, parse returns a `ParseResult` (the embedding of
`parseTeamcenterLog` is a total function). -/
theorem parse_total_on_strings :
    (∀ s : String, parseDocument (some s) = Except.ok (parseTeamcenterLog s)) ∧
    parseDocument none = Except.error ParseFailure.notAString :=
  ⟨fun _ => rfl, rfl⟩

/-! ### C1 — workflow handler endLine: counterexample -/

/-- Claim C1 as stated is false: with `ENTER "A"` followed by
`LEAVE "B"`, the source closes the span at the LEAVE line of the *other*
function (`endLine = 1`), while the claim requires a name-matching LEAVE
(there is none, so it predicts `endLine = 0`). -/
theorem workflow_endLine_claim_refuted :
    ¬ (∀ e ∈ (parseTeamcenterLog
        "--> ENTER Function \"A\" \x7b (File [p])\n<-- LEAVE Function \"B\"").workflowHandlers,
        e.endLine = specWorkflowEnd
          (parseTeamcenterLog
            "--> ENTER Function \"A\" \x7b (File [p])\n<-- LEAVE Function \"B\"").lines
          e.line e.functionName) := by
  decide

/-! ### C3 — SQL graceful truncation: counterexample -/

/-- Claim C3 as stated (for *every* START marker with no subsequent END
marker there is exactly one `SqlDump` at that marker) is false: with two
START lines and no END line, the first dump swallows the second marker, so
line 1 — itself a START marker with no subsequent END — has no `SqlDump`. -/
theorem sql_truncation_claim_refuted :
    ¬ (∀ i ∈ List.range
          (parseTeamcenterLog "START SQL_PROFILE_DUMP\nSTART SQL_PROFILE_DUMP").lines.length,
        sStartsWith
            (getLine (parseTeamcenterLog "START SQL_PROFILE_DUMP\nSTART SQL_PROFILE_DUMP").lines i)
            "START SQL_PROFILE_DUMP" = true →
        (∀ j ∈ List.range
            (parseTeamcenterLog "START SQL_PROFILE_DUMP\nSTART SQL_PROFILE_DUMP").lines.length,
          i < j →
          ¬ (sStartsWith
              (getLine (parseTeamcenterLog "START SQL_PROFILE_DUMP\nSTART SQL_PROFILE_DUMP").lines j)
              "END SQL_PROFILE_DUMP" = true)) →
        (((parseTeamcenterLog "START SQL_PROFILE_DUMP\nSTART SQL_PROFILE_DUMP").sqlDumps.filter
            fun d => d.line == i).map fun d => d.endLine) =
          [(parseTeamcenterLog "START SQL_PROFILE_DUMP\nSTART SQL_PROFILE_DUMP").lines.length - 1]) := by
  decide

/-! ### C6 — journal summary digest: counterexample -/

/-- Claim C6 as stated is false: for
`"START JOURNALLED_TIMES\nEND JOURNALLED_TIMES"` the produced summary
section has digest `"END JOURNALLED_TIMES"` — the section's END marker line
contributes to the digest, which the claim forbids. -/
theorem journal_summary_claim_refuted :
    ¬ (∀ s ∈ (parseTeamcenterLog "START JOURNALLED_TIMES\nEND JOURNALLED_TIMES").journalSections,
        s.type = JournalType.summary →
        s.rows = [] ∧
        s.summary = specDigestC6
          (parseTeamcenterLog "START JOURNALLED_TIMES\nEND JOURNALLED_TIMES").lines
          s.line s.endLine) := by
  decide

/-! ### C5 — the inline-SQL predicate matches its specification -/

lemma contains_eq_decide_mem (l : List String) (s : String) : l.contains s = decide (s ∈ l) := by
  induction l with
  | nil => simp
  | cons a t ih => simp [List.contains_cons, ih, eq_comm]

lemma tokenOk_eq (tk : List Char) :
    (if tk = [] then false
     else if !INLINE_SQL_KEYWORDS.contains ⟨tk.map asciiUpper⟩ then false
     else if tk ≠ tk.map asciiUpper then false else true) =
    decide (tk ≠ [] ∧ (⟨tk.map asciiUpper⟩ : String) ∈ INLINE_SQL_KEYWORDS ∧
      tk = tk.map asciiUpper) := by
  by_cases h1 : tk = []
  · rw [if_pos h1]
    exact (decide_eq_false fun hc => hc.1 h1).symm
  · rw [if_neg h1, contains_eq_decide_mem]
    by_cases h2 : (⟨tk.map asciiUpper⟩ : String) ∈ INLINE_SQL_KEYWORDS
    · rw [decide_eq_true h2]
      simp only [Bool.not_true]
      rw [if_neg Bool.false_ne_true]
      by_cases h3 : tk = tk.map asciiUpper
      · rw [if_neg (not_not_intro h3)]
        exact (decide_eq_true ⟨h1, h2, h3⟩).symm
      · rw [if_pos h3]
        exact (decide_eq_false fun hc => h3 hc.2.2).symm
    · rw [decide_eq_false h2]
      simp only [Bool.not_false]
      rw [if_pos trivial]
      exact (decide_eq_false fun hc => h2 hc.2.1).symm

/-- Claim C5: the source predicate `isInlineSqlText` agrees with the
spec-worded predicate (strip the optional `SQL[:>-=]?` prefix; the leading
alphabetic token must be a keyword written exactly in all-caps) on every
text, and the two stated scenarios behave as claimed.  Totality is by
construction (`isInlineSqlText : String → Bool` is a total function). -/
theorem inline_sql_spec_equiv :
    (∀ t : String, isInlineSqlText t = isInlineSqlSpec t) ∧
    isInlineSqlText "select * from foo" = false ∧
    isInlineSqlText "SELECT * FROM foo" = true := by
  refine ⟨fun t => ?_, by decide, by decide⟩
  unfold isInlineSqlText isInlineSqlSpec
  by_cases h : jsTrim t = ""
  · have h2 : jsTrimL t.toList = [] := by
      have := congrArg String.toList h
      simpa using this
    rw [if_pos h, h2]
    decide
  · rw [if_neg h]
    exact tokenOk_eq ((sqlStrip (jsTrimL t.toList)).takeWhile isAsciiAlpha)

/-! ### Infrastructure lemmas -/

lemma bool_eq_false {b : Bool} (h : ¬ b = true) : b = false := by
  cases b
  · rfl
  · exact absurd rfl h

lemma findFromAux_some {p : String → Bool} {lines : List String} :
    ∀ {fuel j k}, findFromAux p lines fuel j = some k →
      j ≤ k ∧ k < lines.length ∧ p (getLine lines k) = true ∧
        ∀ j', j ≤ j' → j' < k → p (getLine lines j') = false := by
  intro fuel
  induction fuel with
  | zero => intro j k h; simp [findFromAux] at h
  | succ fuel ih =>
    intro j k h
    unfold findFromAux at h
    split at h
    case isTrue hj =>
      split at h
      case isTrue hp =>
        cases h
        exact ⟨Nat.le_refl _, hj, hp, fun j' h1 h2 => by omega⟩
      case isFalse hp =>
        obtain ⟨h1, h2, h3, h4⟩ := ih h
        refine ⟨by omega, h2, h3, fun j' hj1 hj2 => ?_⟩
        rcases Nat.eq_or_lt_of_le hj1 with rfl | hlt
        · exact bool_eq_false hp
        · exact h4 j' (by omega) hj2
    case isFalse => cases h

lemma findFromAux_none {p : String → Bool} {lines : List String} :
    ∀ {fuel j}, findFromAux p lines fuel j = none → lines.length ≤ fuel + j →
      ∀ j', j ≤ j' → j' < lines.length → p (getLine lines j') = false := by
  intro fuel
  induction fuel with
  | zero => intro j _ hle j' h1 h2; omega
  | succ fuel ih =>
    intro j h hle j' h1 h2
    unfold findFromAux at h
    split at h
    case isTrue hj =>
      split at h
      case isTrue hp => cases h
      case isFalse hp =>
        rcases Nat.eq_or_lt_of_le h1 with rfl | hlt
        · exact bool_eq_false hp
        · exact ih h (by omega) j' (by omega) h2
    case isFalse hj => omega

lemma findFrom_some {p : String → Bool} {lines : List String} {start k : Nat}
    (h : findFrom p lines start = some k) :
    start ≤ k ∧ k < lines.length ∧ p (getLine lines k) = true ∧
      ∀ j', start ≤ j' → j' < k → p (getLine lines j') = false :=
  findFromAux_some h

lemma findFrom_none {p : String → Bool} {lines : List String} {start : Nat}
    (h : findFrom p lines start = none) :
    ∀ j', start ≤ j' → j' < lines.length → p (getLine lines j') = false :=
  findFromAux_none h (Nat.le_add_right _ _)

lemma mem_filterMapRange {α : Type} {f : Nat → Option α} {n : Nat} {a : α} :
    a ∈ (List.range n).filterMap f ↔ ∃ i, i < n ∧ f i = some a := by
  simp only [List.mem_filterMap, List.mem_range]

lemma pairwise_filterMapRange {α : Type} (f : Nat → Option α) (key : α → Nat) (n : Nat)
    (hk : ∀ i a, f i = some a → key a = i) :
    ((List.range n).filterMap f).Pairwise fun a b => key a < key b := by
  rw [List.pairwise_filterMap]
  refine (List.pairwise_lt_range n).imp ?_
  intro a b hab x hx y hy
  rw [hk a x hx, hk b y hy]
  exact hab

/-! ### C1 — amended workflow-handler theorem -/

/-- Claim C1 amended: the handler produced for an ENTER line `i` has
`endLine` equal to the nearest subsequent line matching the LEAVE pattern
*regardless of its function name* (the captured name is never compared); if
no such line exists before EOF, `endLine = i`.  Every ENTER line produces a
handler. -/
theorem workflow_endLine_amended (text : String) :
    (∀ e ∈ (parseTeamcenterLog text).workflowHandlers,
      e.endLine = (findFrom isLeaveLine (parseTeamcenterLog text).lines (e.line + 1)).getD e.line) ∧
    (∀ i ∈ List.range (parseTeamcenterLog text).lines.length,
      (enterMatch (getLine (parseTeamcenterLog text).lines i)).isSome = true →
      ∃ e ∈ (parseTeamcenterLog text).workflowHandlers, e.line = i) := by
  constructor
  · intro e he
    have he' : e ∈ collectWorkflowHandlers (splitLines text) := he
    rw [collectWorkflowHandlers, mem_filterMapRange] at he'
    obtain ⟨i, _, hf⟩ := he'
    rcases ho : enterMatch (getLine (splitLines text) i) with _ | nmfp
    · rw [ho] at hf; cases hf
    · rw [ho] at hf
      cases hf
      rfl
  · intro i hi hsome
    rw [List.mem_range] at hi
    rcases ho : enterMatch (getLine (splitLines text) i) with _ | nmfp
    · rw [show (parseTeamcenterLog text).lines = splitLines text from rfl, ho] at hsome
      cases hsome
    · refine ⟨{ line := i,
                endLine := (findFrom isLeaveLine (splitLines text) (i + 1)).getD i,
                functionName := jsTrim nmfp.1, filePath := jsTrim nmfp.2,
                raw := getLine (splitLines text) i }, ?_, rfl⟩
      show _ ∈ collectWorkflowHandlers (splitLines text)
      rw [collectWorkflowHandlers, mem_filterMapRange]
      exact ⟨i, hi, by rw [ho]⟩

/-- Witness for the amended C1 theorem: a single ENTER line with no LEAVE
line at all collapses to `endLine = line = 0`. -/
theorem workflow_endLine_amended_witness :
    (0 : Nat) =
      (findFrom isLeaveLine
        (parseTeamcenterLog "--> ENTER Function \"W\" \x7b (File [q])").lines 1).getD 0 :=
  (workflow_endLine_amended "--> ENTER Function \"W\" \x7b (File [q])").1
    { line := 0, endLine := 0, functionName := "W", filePath := "q",
      raw := "--> ENTER Function \"W\" \x7b (File [q])" }
    (by decide)

/-! ### C6 — amended journal-summary theorem -/

/-- Claim C6 amended: for every summary-type journal section, no rows are
extracted, and the digest is `journalDigest`: the single-space join of up to
3 non-empty lines not starting with `@*` or `START ` among body lines
`line+1 .. min(endLine, line+8)` — a range that includes the END marker
line, which can therefore contribute (the START marker line never can). -/
theorem journal_summary_amended (text : String) :
    ∀ s ∈ (parseTeamcenterLog text).journalSections, s.type = JournalType.summary →
      s.rows = [] ∧
      s.summary = journalDigest (parseTeamcenterLog text).lines s.line s.endLine := by
  intro s hs hty
  have hs' : s ∈ collectJournalSections (splitLines text) := hs
  rw [collectJournalSections, mem_filterMapRange] at hs'
  obtain ⟨i, _, hf⟩ := hs'
  split at hf
  case isTrue hstart =>
    rcases hp : journalPatternOf (jsTrim (getLine (splitLines text) i)) with _ | jt
    · rw [hp] at hf; cases hf
    · rw [hp] at hf
      cases hf
      exact ⟨if_pos hty, rfl⟩
  case isFalse => cases hf

/-- Witness for the amended C6 theorem, at the two-line input whose END
marker line is the whole digest. -/
theorem journal_summary_amended_witness :
    ([] : List JournalRow) = [] ∧
    "END JOURNALLED_TIMES" =
      journalDigest
        (parseTeamcenterLog "START JOURNALLED_TIMES\nEND JOURNALLED_TIMES").lines 0 1 :=
  journal_summary_amended "START JOURNALLED_TIMES\nEND JOURNALLED_TIMES"
    { type := JournalType.summary, line := 0, endLine := 1, rows := [],
      summary := "END JOURNALLED_TIMES" }
    (by decide) rfl

/-! ### C3 — amended SQL-truncation theorem -/

lemma sqlBodyAux_no_end (lines : List String) :
    ∀ fuel c,
      (∀ j, c ≤ j → j < lines.length →
        sStartsWith (jsTrim (getLine lines j)) "END SQL_PROFILE_DUMP" = false) →
      lines.length ≤ fuel + c →
      (sqlBodyAux lines fuel c).2 = (max c lines.length, none) := by
  intro fuel
  induction fuel with
  | zero =>
    intro c _ hle
    have hc : lines.length ≤ c := by omega
    simp [sqlBodyAux, Nat.max_eq_left hc]
  | succ fuel ih =>
    intro c hno hle
    simp only [sqlBodyAux]
    split
    case isTrue hc =>
      rw [hno c (Nat.le_refl c) hc, if_neg Bool.false_ne_true]
      have ih' := ih (c + 1) (fun j h1 h2 => hno j (by omega) h2) (by omega)
      rcases hr : sqlBodyAux lines fuel (c + 1) with ⟨rows, nxt, cl⟩
      rw [hr] at ih'
      have hmax : max (c + 1) lines.length = max c lines.length := by
        rw [Nat.max_eq_right (by omega), Nat.max_eq_right (by omega)]
      split <;> simpa [hmax] using ih'
    case isFalse hc =>
      have hc' : lines.length ≤ c := by omega
      simp [Nat.max_eq_left hc']
lemma collectSqlAux_nil (lines : List String) :
    ∀ fuel idx, lines.length ≤ idx → collectSqlAux lines fuel idx = [] := by
  intro fuel idx h
  cases fuel with
  | zero => rfl
  | succ fuel => simp only [collectSqlAux]; rw [if_neg (by omega)]

lemma collectSqlAux_first (lines : List String) (i0 : Nat)
    (hstart : sStartsWith (jsTrim (getLine lines i0)) "START SQL_PROFILE_DUMP" = true)
    (hi0 : i0 < lines.length)
    (hnoend : ∀ j, i0 < j → j < lines.length →
      sStartsWith (jsTrim (getLine lines j)) "END SQL_PROFILE_DUMP" = false) :
    ∀ fuel idx, idx ≤ i0 → lines.length ≤ fuel + idx →
      (∀ j, idx ≤ j → j < i0 →
        sStartsWith (jsTrim (getLine lines j)) "START SQL_PROFILE_DUMP" = false) →
      collectSqlAux lines fuel idx =
        [{ line := i0, endLine := lines.length - 1,
           rows := (sqlBodyAux lines lines.length (i0 + 1)).1 }] := by
  intro fuel
  induction fuel with
  | zero => intro idx h1 h2 _; omega
  | succ fuel ih =>
    intro idx h1 h2 h3
    simp only [collectSqlAux]
    rw [if_pos (show idx < lines.length by omega)]
    rcases Nat.eq_or_lt_of_le h1 with rfl | hlt
    · rw [if_pos hstart]
      have hb := sqlBodyAux_no_end lines lines.length (idx + 1)
        (fun j hj1 hj2 => hnoend j (by omega) hj2) (by omega)
      rcases hr : sqlBodyAux lines lines.length (idx + 1) with ⟨rows, nxt, cl⟩
      rw [hr] at hb
      have hnxt : nxt = lines.length := by
        have := congrArg Prod.fst hb
        simpa [Nat.max_eq_right (show idx + 1 ≤ lines.length by omega)] using this
      have hcl : cl = none := congrArg Prod.snd hb
      subst hnxt
      subst hcl
      rw [collectSqlAux_nil lines fuel lines.length (Nat.le_refl _)]
      simp [Nat.max_eq_right (show idx ≤ lines.length - 1 by omega)]
    · rw [h3 idx (Nat.le_refl idx) hlt, if_neg Bool.false_ne_true]
      exact ih (idx + 1) (by omega) (by omega) (fun j hj1 hj2 => h3 j (by omega) hj2)

/-- Claim C3 amended: for every input whose *first* line trimmed-starting
with `START SQL_PROFILE_DUMP` has no subsequent line trimmed-starting with
`END SQL_PROFILE_DUMP`, parse returns exactly one `SqlDump` overall, at that
first marker, with `endLine` the last line of the input (parse never throws
— the embedding is total).  The original per-marker quantification fails
because a later START marker inside the unterminated dump produces no dump
of its own. -/
theorem sql_truncation_amended (text : String) (i0 : Nat)
    (h1 : findFrom (fun s => sStartsWith (jsTrim s) "START SQL_PROFILE_DUMP")
      (parseTeamcenterLog text).lines 0 = some i0)
    (h2 : ∀ j ∈ List.range (parseTeamcenterLog text).lines.length, i0 < j →
      sStartsWith (jsTrim (getLine (parseTeamcenterLog text).lines j)) "END SQL_PROFILE_DUMP"
        = false) :
    ((parseTeamcenterLog text).sqlDumps.map fun d => (d.line, d.endLine)) =
      [(i0, (parseTeamcenterLog text).lines.length - 1)] := by
  obtain ⟨-, hi0, hp, hmin⟩ := findFrom_some h1
  have hd : (parseTeamcenterLog text).sqlDumps = collectSqlSections (splitLines text) := rfl
  rw [hd, collectSqlSections,
    collectSqlAux_first (splitLines text) i0 hp hi0
      (fun j hj1 hj2 => h2 j (List.mem_range.mpr hj2) hj1)
      (splitLines text).length 0 (by omega) (by omega)
      (fun j hj1 hj2 => hmin j hj1 hj2)]
  rfl

/-- Witness for the amended C3 theorem: a single unterminated START line. -/
theorem sql_truncation_amended_witness :
    ((parseTeamcenterLog "START SQL_PROFILE_DUMP").sqlDumps.map fun d => (d.line, d.endLine)) =
      [(0, (parseTeamcenterLog "START SQL_PROFILE_DUMP").lines.length - 1)] :=
  sql_truncation_amended "START SQL_PROFILE_DUMP" 0 (by decide) (by decide)

/-! ### C7 — inlineSqlLines: sorted, deduplicated, log-priority -/

lemma collectLogLines_line_eq {lines : List String} {i : Nat} {a : LogLine}
    (h : ((logLineMatch (getLine lines i)).map fun caps => mkLogLine (getLine lines i) i caps)
      = some a) : a.line = i := by
  rcases hm : logLineMatch (getLine lines i) with _ | caps
  · rw [hm] at h; cases h
  · rw [hm] at h
    cases h
    rfl

lemma collectLogLines_pairwise (lines : List String) :
    (collectLogLines lines).Pairwise fun a b => a.line < b.line :=
  pairwise_filterMapRange _ (fun e => e.line) _ fun _ _ h => collectLogLines_line_eq h

lemma collectLogLines_mem {lines : List String} {a : LogLine} (h : a ∈ collectLogLines lines) :
    ∃ i, i < lines.length ∧
      ((logLineMatch (getLine lines i)).map fun caps => mkLogLine (getLine lines i) i caps)
        = some a :=
  mem_filterMapRange.mp h

lemma collectLogLines_inj {lines : List String} {a b : LogLine}
    (ha : a ∈ collectLogLines lines) (hb : b ∈ collectLogLines lines)
    (hab : a.line = b.line) : a = b := by
  obtain ⟨i, _, hfi⟩ := collectLogLines_mem ha
  obtain ⟨j, _, hfj⟩ := collectLogLines_mem hb
  have hai : a.line = i := collectLogLines_line_eq hfi
  have hbj : b.line = j := collectLogLines_line_eq hfj
  have hij : i = j := by omega
  subst hij
  rw [hfi] at hfj
  exact Option.some.inj hfj

lemma collectInlineSqlLines_line_eq {lines : List String} {i : Nat} {a : InlineHit}
    (h : (if jsTrim (getLine lines i) = "" then none
          else if sStartsWith (jsTrim (getLine lines i)) "START SQL_PROFILE_DUMP" ||
              sStartsWith (jsTrim (getLine lines i)) "END SQL_PROFILE_DUMP" then none
          else if isInlineSqlText (jsTrim (getLine lines i)) then
            some { line := i, text := getLine lines i }
          else none) = some a) : a.line = i := by
  split at h
  · cases h
  · split at h
    · cases h
    · split at h
      · cases h; rfl
      · cases h

lemma collectInlineSqlLines_pairwise (lines : List String) :
    (collectInlineSqlLines lines).Pairwise fun a b => a.line < b.line :=
  pairwise_filterMapRange _ (fun e => e.line) _ fun _ _ h => collectInlineSqlLines_line_eq h

/-- Claim C7: for every input, `inlineSqlLines` is strictly sorted by line
(hence at most one entry per line); any entry sharing a line with an
inline-SQL-flagged `LogLine` is the log-derived entry (`fromLog = true`,
`text` the log message); and every flagged `LogLine` does yield such an
entry. -/
theorem inline_sql_lines_sorted_dedup (text : String) :
    (parseTeamcenterLog text).inlineSqlLines.Pairwise (fun a b => a.line < b.line) ∧
    (∀ e ∈ (parseTeamcenterLog text).inlineSqlLines,
      ∀ ll ∈ (parseTeamcenterLog text).logLines,
        ll.line = e.line → ll.isInlineSql = true →
        e.fromLog = true ∧ e.text = ll.message) ∧
    (∀ ll ∈ (parseTeamcenterLog text).logLines, ll.isInlineSql = true →
      ({ line := ll.line, text := ll.message, fromLog := true } : InlineSqlLine) ∈
        (parseTeamcenterLog text).inlineSqlLines) := by
  have hPL : (inlineLogPart (splitLines text)).Pairwise (fun a b => a.line < b.line) :=
    (List.pairwise_map).mpr
      (List.Pairwise.sublist (List.filter_sublist _) (collectLogLines_pairwise (splitLines text)))
  have hPH : (inlineHeurPart (splitLines text)).Pairwise (fun a b => a.line < b.line) :=
    (List.pairwise_map).mpr
      (List.Pairwise.sublist (List.filter_sublist _)
        (collectInlineSqlLines_pairwise (splitLines text)))
  have hcross : ∀ a ∈ inlineLogPart (splitLines text), ∀ b ∈ inlineHeurPart (splitLines text),
      a.line ≠ b.line := by
    intro a ha b hb
    obtain ⟨e0, he0, rfl⟩ := List.mem_map.mp ha
    obtain ⟨item, hitem, rfl⟩ := List.mem_map.mp hb
    obtain ⟨he0L, he0flag⟩ := List.mem_filter.mp he0
    obtain ⟨_, hitemcond⟩ := List.mem_filter.mp hitem
    intro heq
    have hany : ((collectLogLines (splitLines text)).any
        fun e => e.isInlineSql && e.line == item.line) = true :=
      List.any_eq_true.mpr ⟨e0, he0L, by simp [he0flag]; exact heq⟩
    rw [hany] at hitemcond
    cases hitemcond
  have hM : ((inlineLogPart (splitLines text) ++ inlineHeurPart (splitLines text))).Pairwise
      (fun a b => a.line ≠ b.line) :=
    List.pairwise_append.mpr
      ⟨hPL.imp Nat.ne_of_lt, hPH.imp Nat.ne_of_lt, hcross⟩
  have hperm : List.Perm (buildInlineSqlLines (splitLines text))
      (inlineLogPart (splitLines text) ++ inlineHeurPart (splitLines text)) :=
    List.perm_insertionSort leLine _
  have hsorted : (buildInlineSqlLines (splitLines text)).Pairwise leLine :=
    List.sorted_insertionSort leLine _
  have hne_out : (buildInlineSqlLines (splitLines text)).Pairwise
      (fun a b => a.line ≠ b.line) :=
    (List.Perm.pairwise_iff (fun h => Ne.symm h) hperm).mpr hM
  refine ⟨?_, ?_, ?_⟩
  · exact (hsorted.and hne_out).imp fun hab => Nat.lt_of_le_of_ne hab.1 hab.2
  · intro e he ll hll hline hflag
    have heM : e ∈ inlineLogPart (splitLines text) ++ inlineHeurPart (splitLines text) :=
      hperm.mem_iff.mp he
    rcases List.mem_append.mp heM with hlog | hheur
    · obtain ⟨e0, he0, rfl⟩ := List.mem_map.mp hlog
      obtain ⟨he0L, _⟩ := List.mem_filter.mp he0
      have : ll = e0 := collectLogLines_inj hll he0L hline
      subst this
      exact ⟨rfl, rfl⟩
    · obtain ⟨item, hitem, rfl⟩ := List.mem_map.mp hheur
      obtain ⟨_, hitemcond⟩ := List.mem_filter.mp hitem
      have hany : ((collectLogLines (splitLines text)).any
          fun e => e.isInlineSql && e.line == item.line) = true :=
        List.any_eq_true.mpr ⟨ll, hll, by simp [hflag]; exact hline⟩
      rw [hany] at hitemcond
      cases hitemcond
  · intro ll hll hflag
    refine hperm.symm.mem_iff.mp (List.mem_append.mpr (Or.inl ?_))
    exact List.mem_map.mpr ⟨ll, List.mem_filter.mpr ⟨hll, hflag⟩, rfl⟩

/-- Witness for C7: a log line whose message is inline SQL yields the
log-derived entry (`fromLog = true`, `text` the message) at its line. -/
theorem inline_sql_lines_sorted_dedup_witness :
    ({ line := 0, text := "SELECT 1 FROM DUAL", fromLog := true } : InlineSqlLine).fromLog
        = true ∧
    ({ line := 0, text := "SELECT 1 FROM DUAL", fromLog := true } : InlineSqlLine).text
        = "SELECT 1 FROM DUAL" :=
  (inline_sql_lines_sorted_dedup
      "ERROR - 2021/11/22-10:15:30 UTC - NoID - SELECT 1 FROM DUAL").2.1
    { line := 0, text := "SELECT 1 FROM DUAL", fromLog := true } (by decide)
    { line := 0, level := "ERROR", timestamp := "2021/11/22-10:15:30", id := "NoID",
      message := "SELECT 1 FROM DUAL", levelStart := 0, levelEnd := 5,
      timestampStart := some 8, timestampEnd := some 27, idStart := some 34,
      idEnd := some 38, messageStart := some 41, messageEnd := some 59,
      isInlineSql := true } (by decide) rfl rfl

/-! ### C8 — line/endLine bounds: per-collector lemmas -/

lemma headerCandidate_mem {lines : List String} {i : Nat} {pre : String} {hl : HeaderLine}
    (h : hl ∈ headerCandidate lines i pre) : hl.line = i ∧ i < lines.length := by
  unfold headerCandidate at h
  rcases hg : lines.get? i with _ | l <;> rw [hg] at h <;> dsimp only at h
  · cases h
  · obtain ⟨hlen, -⟩ := List.get?_eq_some.mp hg
    split at h
    · have he := List.mem_singleton.mp h
      subst he
      exact ⟨rfl, hlen⟩
    · cases h

lemma collectHeader_bounds {lines : List String} {hd : Header}
    (h : collectHeader lines = some hd) :
    hd.line < lines.length ∧ ∀ hl ∈ hd.lines, hl.line < lines.length := by
  unfold collectHeader at h
  rcases hm : headerCandidate lines 0 "***" ++
      headerCandidate lines 1 "*** system log created by" with _ | ⟨hh, tt⟩ <;>
    rw [hm] at h
  · cases h
  · cases h
    have hmem : ∀ hl ∈ hh :: tt, hl.line < lines.length := by
      intro hl hhl
      have : hl ∈ headerCandidate lines 0 "***" ++
          headerCandidate lines 1 "*** system log created by" := by rw [hm]; exact hhl
      rcases List.mem_append.mp this with hc | hc
      · obtain ⟨he, hlt⟩ := headerCandidate_mem hc
        omega
      · obtain ⟨he, hlt⟩ := headerCandidate_mem hc
        omega
    exact ⟨hmem hh (List.mem_cons_self _ _), hmem⟩

lemma envEntriesAux_bounds (lines : List String) (s : Nat) :
    ∀ fuel off, ∀ e ∈ envEntriesAux lines s fuel off, e.line < lines.length := by
  intro fuel
  induction fuel with
  | zero => intro off e he; cases he
  | succ fuel ih =>
    intro off e he
    unfold envEntriesAux at he
    split at he
    case isTrue hin =>
      split at he
      · cases he
      · split at he
        · cases he
        · rcases List.mem_cons.mp he with he | he
          · subst he
            exact hin
          · exact ih (off + 1) _ he
    case isFalse => cases he

lemma dllEntriesAux_bounds (lines : List String) (s : Nat) :
    ∀ fuel off, ∀ e ∈ dllEntriesAux lines s fuel off, e.line < lines.length := by
  intro fuel
  induction fuel with
  | zero => intro off e he; cases he
  | succ fuel ih =>
    intro off e he
    unfold dllEntriesAux at he
    split at he
    case isTrue hin =>
      split at he
      · cases he
      · split at he
        · cases he
        · rcases List.mem_cons.mp he with he | he
          · subst he
            exact hin
          · exact ih (off + 1) _ he
    case isFalse => cases he

lemma sqlBodyAux_bounds (lines : List String) :
    ∀ fuel c,
      (∀ row ∈ (sqlBodyAux lines fuel c).1, c ≤ row.line ∧ row.line < lines.length) ∧
      (sqlBodyAux lines fuel c).2.1 ≤ max c lines.length ∧
      (∀ e, (sqlBodyAux lines fuel c).2.2 = some e → c ≤ e ∧ e < lines.length) := by
  intro fuel
  induction fuel with
  | zero =>
    intro c
    refine ⟨fun row h => ?_, Nat.le_max_left _ _, fun e h => ?_⟩
    · cases h
    · cases h
  | succ fuel ih =>
    intro c
    simp only [sqlBodyAux]
    split
    case isTrue hc =>
      split
      case isTrue hend =>
        refine ⟨fun row h => ?_, by simp; omega, fun e h => ?_⟩
        · cases h
        · cases h
          exact ⟨Nat.le_refl _, hc⟩
      case isFalse hend =>
        obtain ⟨ihrows, ihnxt, ihcl⟩ := ih (c + 1)
        rcases hr : sqlBodyAux lines fuel (c + 1) with ⟨rows, nxt, cl⟩
        rw [hr] at ihrows ihnxt ihcl
        have hnxt' : nxt ≤ max c lines.length := by
          have h1 : max (c + 1) lines.length = lines.length := Nat.max_eq_right (by omega)
          have h2 : max c lines.length = lines.length := Nat.max_eq_right (by omega)
          simp only [h1] at ihnxt
          omega
        have hcl' : ∀ e, cl = some e → c ≤ e ∧ e < lines.length := by
          intro e he
          obtain ⟨h1, h2⟩ := ihcl e he
          exact ⟨by omega, h2⟩
        split
        · refine ⟨fun row h => ?_, hnxt', hcl'⟩
          rcases List.mem_cons.mp h with h | h
          · subst h
            exact ⟨Nat.le_refl _, hc⟩
          · obtain ⟨h1, h2⟩ := ihrows row h
            exact ⟨by omega, h2⟩
        · refine ⟨fun row h => ?_, hnxt', hcl'⟩
          obtain ⟨h1, h2⟩ := ihrows row h
          exact ⟨by omega, h2⟩
    case isFalse hc =>
      refine ⟨fun row h => ?_, Nat.le_max_left _ _, fun e h => ?_⟩
      · cases h
      · cases h

lemma collectSqlAux_bounds (lines : List String) :
    ∀ fuel idx, ∀ d ∈ collectSqlAux lines fuel idx,
      d.line < lines.length ∧ d.line ≤ d.endLine ∧ d.endLine < lines.length ∧
      ∀ row ∈ d.rows, row.line < lines.length := by
  intro fuel
  induction fuel with
  | zero => intro idx d hd; cases hd
  | succ fuel ih =>
    intro idx d hd
    unfold collectSqlAux at hd
    split at hd
    case isTrue hidx =>
      split at hd
      case isTrue hstart =>
        obtain ⟨brows, bnxt, bcl⟩ := sqlBodyAux_bounds lines lines.length (idx + 1)
        rcases hr : sqlBodyAux lines lines.length (idx + 1) with ⟨rows, nxt, cl⟩
        rw [hr] at brows bnxt bcl hd
        rcases List.mem_cons.mp hd with hd | hd
        · subst hd
          dsimp only
          refine ⟨hidx, ?_, ?_, ?_⟩
          · rcases hcl : cl with _ | e
            · simp only [hcl, Option.getD_none]
              exact Nat.le_max_left _ _
            · simp only [hcl, Option.getD_some]
              exact Nat.le_of_succ_le (bcl e hcl).1
          · rcases hcl : cl with _ | e
            · simp only [hcl, Option.getD_none]
              have h1 : max (idx + 1) lines.length = lines.length :=
                Nat.max_eq_right (by omega)
              simp only [h1] at bnxt
              omega
            · simp only [hcl, Option.getD_some]
              exact (bcl e hcl).2
          · intro row hrow
            exact (brows row hrow).2
        · exact ih nxt d hd
      case isFalse hstart => exact ih (idx + 1) d hd
    case isFalse hidx => cases hd

lemma journalEndLine_bounds (lines : List String) (jt : JournalType) {i : Nat}
    (hi : i < lines.length) :
    i ≤ journalEndLine lines jt i ∧ journalEndLine lines jt i < lines.length := by
  unfold journalEndLine
  rcases hf : findFrom (fun s => journalEndTest jt (jsTrim s)) lines (i + 1) with _ | c
  · simp only [Option.getD_none]
    exact ⟨Nat.le_max_left _ _, Nat.max_lt.mpr ⟨hi, by omega⟩⟩
  · obtain ⟨h1, h2, -, -⟩ := findFrom_some hf
    simp only [Option.getD_some]
    exact ⟨by omega, h2⟩

lemma journalRowOf_line_eq {lines : List String} {j : Nat} {row : JournalRow}
    (h : journalRowOf lines j = some row) : row.line = j := by
  unfold journalRowOf at h
  split at h
  · cases h
  · split at h
    · cases h
    · split at h
      · cases h
      · split at h
        · cases h
        · cases h
          rfl

lemma collectJournalRows_bounds (lines : List String) (a b : Nat) :
    ∀ row ∈ collectJournalRows lines a b, a ≤ row.line ∧ row.line ≤ b := by
  intro row hrow
  unfold collectJournalRows at hrow
  rw [List.mem_filterMap] at hrow
  obtain ⟨j, hj, hf⟩ := hrow
  rw [List.mem_range'] at hj
  obtain ⟨k, hk, rfl⟩ := hj
  have := journalRowOf_line_eq hf
  omega

lemma collectJournalSections_bounds (lines : List String) :
    ∀ s ∈ collectJournalSections lines,
      s.line < lines.length ∧ s.line ≤ s.endLine ∧ s.endLine < lines.length ∧
      ∀ row ∈ s.rows, row.line < lines.length := by
  intro s hs
  obtain ⟨i, hi, hf⟩ := mem_filterMapRange.mp hs
  split at hf
  · rcases hp : journalPatternOf (jsTrim (getLine lines i)) with _ | jt
    · rw [hp] at hf; cases hf
    · rw [hp] at hf
      cases hf
      obtain ⟨hle, hlt⟩ := journalEndLine_bounds lines jt hi
      refine ⟨hi, hle, hlt, ?_⟩
      dsimp only
      split
      · intro row hrow
        cases hrow
      · intro row hrow
        have := collectJournalRows_bounds lines (i + 1) (journalEndLine lines jt i - 1) row hrow
        omega
  · cases hf

lemma traceBodyAux_bounds (lines : List String) :
    ∀ fuel c hdr,
      (∀ row ∈ (traceBodyAux lines fuel c hdr).2.1,
        c ≤ row.line ∧ row.line < lines.length) ∧
      (∀ e, (traceBodyAux lines fuel c hdr).2.2.2 = some e →
        c ≤ e ∧ e < lines.length) := by
  intro fuel
  induction fuel with
  | zero =>
    intro c hdr
    simp only [traceBodyAux]
    exact ⟨fun row h => (by cases h), fun e h => (by cases h)⟩
  | succ fuel ih =>
    intro c hdr
    simp only [traceBodyAux]
    split
    case isTrue hc =>
      split
      case isTrue hend =>
        refine ⟨fun row h => (by cases h), fun e h => ?_⟩
        cases h
        exact ⟨Nat.le_refl _, hc⟩
      case isFalse hend =>
        split
        · obtain ⟨ihr, ihe⟩ := ih (c + 1) (some (jsTrim (getLine lines c)))
          refine ⟨fun row h => ?_, fun e h => ?_⟩
          · obtain ⟨h1, h2⟩ := ihr row h
            exact ⟨by omega, h2⟩
          · obtain ⟨h1, h2⟩ := ihe e h
            exact ⟨by omega, h2⟩
        · rcases hm : traceRowMatch (getLine lines c) with _ | caps
          · obtain ⟨ihr, ihe⟩ := ih (c + 1) hdr
            refine ⟨fun row h => ?_, fun e h => ?_⟩
            · obtain ⟨h1, h2⟩ := ihr row h
              exact ⟨by omega, h2⟩
            · obtain ⟨h1, h2⟩ := ihe e h
              exact ⟨by omega, h2⟩
          · obtain ⟨ihr, ihe⟩ := ih (c + 1) hdr
            rcases hr : traceBodyAux lines fuel (c + 1) hdr with ⟨h', rows, nxt, eq⟩
            rw [hr] at ihr ihe
            refine ⟨fun row h => ?_, fun e h => ?_⟩
            · rcases List.mem_cons.mp h with h | h
              · subst h
                exact ⟨Nat.le_refl _, hc⟩
              · obtain ⟨h1, h2⟩ := ihr row h
                exact ⟨by omega, h2⟩
            · obtain ⟨h1, h2⟩ := ihe e h
              exact ⟨by omega, h2⟩
    case isFalse hc =>
      exact ⟨fun row h => (by cases h), fun e h => (by cases h)⟩

lemma buildTrace_bounds (lines : List String) {i : Nat} (hi : i < lines.length) :
    (buildTrace lines i).line = i ∧ i ≤ (buildTrace lines i).endLine ∧
    (buildTrace lines i).endLine < lines.length ∧
    ∀ row ∈ (buildTrace lines i).rows, row.line < lines.length := by
  unfold buildTrace
  obtain ⟨brow, bend⟩ := traceBodyAux_bounds lines lines.length (i + 1) none
  rcases hr : traceBodyAux lines lines.length (i + 1) none with ⟨hdr, rows, nxt, eq⟩
  rw [hr] at brow bend
  dsimp only
  refine ⟨rfl, ?_, ?_, ?_⟩
  · rcases he : eq with _ | e
    · simp only [he, Option.getD_none]
      omega
    · simp only [he, Option.getD_some]
      have := (bend e he).1
      omega
  · rcases he : eq with _ | e
    · simp only [he, Option.getD_none]
      omega
    · simp only [he, Option.getD_some]
      exact (bend e he).2
  · intro row h
    exact (brow row h).2

lemma traceAux_mem (lines : List String) :
    ∀ fuel idx, ∀ tr ∈ traceAux lines fuel idx,
      ∃ i, i < lines.length ∧ tr = buildTrace lines i := by
  intro fuel
  induction fuel with
  | zero => intro idx tr h; cases h
  | succ fuel ih =>
    intro idx tr h
    unfold traceAux at h
    split at h
    case isTrue hidx =>
      split at h
      · rcases List.mem_cons.mp h with h | h
        · exact ⟨idx, hidx, h⟩
        · exact ih _ tr h
      · exact ih _ tr h
    case isFalse => cases h

lemma collectAccessChecks_bounds (lines : List String) :
    ∀ a ∈ collectAccessChecks lines, a.line < lines.length := by
  intro a ha
  obtain ⟨i, hi, hf⟩ := mem_filterMapRange.mp ha
  rcases hm : accessMatch (getLine lines i) with _ | mt
  · rw [hm] at hf; cases hf
  · rw [hm] at hf
    cases hf
    exact hi

lemma collectPomStats_bounds (lines : List String) :
    ∀ m ∈ collectPomStats lines, m.line < lines.length := by
  intro m hm
  obtain ⟨i, hi, hf⟩ := mem_filterMapRange.mp hm
  split at hf
  · cases hf; exact hi
  · cases hf

lemma collectEndSessions_bounds (lines : List String) :
    ∀ m ∈ collectEndSessions lines, m.line < lines.length := by
  intro m hm
  obtain ⟨i, hi, hf⟩ := mem_filterMapRange.mp hm
  split at hf
  · cases hf; exact hi
  · cases hf

lemma collectTruncated_bounds (lines : List String) :
    ∀ m ∈ collectTruncated lines, m.line < lines.length := by
  intro m hm
  obtain ⟨i, hi, hf⟩ := mem_filterMapRange.mp hm
  split at hf
  · cases hf; exact hi
  · cases hf

lemma collectEnvSections_bounds (lines : List String) :
    ∀ s ∈ collectEnvSections lines,
      s.line < lines.length ∧ ∀ e ∈ s.entries, e.line < lines.length := by
  intro s hs
  obtain ⟨i, hi, hf⟩ := mem_filterMapRange.mp hs
  split at hf
  · cases hf
    exact ⟨hi, fun e he => envEntriesAux_bounds lines i _ _ e he⟩
  · cases hf

lemma collectDllSections_bounds (lines : List String) :
    ∀ s ∈ collectDllSections lines,
      s.line < lines.length ∧ ∀ e ∈ s.entries, e.line < lines.length := by
  intro s hs
  obtain ⟨i, hi, hf⟩ := mem_filterMapRange.mp hs
  split at hf
  · cases hf
    exact ⟨hi, fun e he => dllEntriesAux_bounds lines i _ _ e he⟩
  · cases hf

lemma collectSystemInfo_bounds (lines : List String) :
    ∀ e ∈ collectSystemInfo lines, e.line < lines.length := by
  intro e he
  obtain ⟨i, hi, hf⟩ := mem_filterMapRange.mp he
  split at hf
  · cases hf
  · rcases hp : SYSTEM_INFO_PREFIXES.find? (fun p => sStartsWith (getLine lines i) p)
      with _ | p
    · rw [hp] at hf; cases hf
    · rw [hp] at hf
      cases hf
      exact hi

lemma collectLogLines_bounds (lines : List String) :
    ∀ l ∈ collectLogLines lines, l.line < lines.length := by
  intro l hl
  obtain ⟨i, hi, hf⟩ := collectLogLines_mem hl
  have := collectLogLines_line_eq hf
  omega

lemma collectWorkflowHandlers_bounds (lines : List String) :
    ∀ w ∈ collectWorkflowHandlers lines,
      w.line < lines.length ∧ w.line ≤ w.endLine ∧ w.endLine < lines.length := by
  intro w hw
  obtain ⟨i, hi, hf⟩ := mem_filterMapRange.mp hw
  rcases hm : enterMatch (getLine lines i) with _ | nmfp
  · rw [hm] at hf; cases hf
  · rw [hm] at hf
    cases hf
    dsimp only
    rcases hff : findFrom isLeaveLine lines (i + 1) with _ | k
    · simp only [hff, Option.getD_none]
      exact ⟨hi, Nat.le_refl _, hi⟩
    · obtain ⟨h1, h2, -, -⟩ := findFrom_some hff
      simp only [hff, Option.getD_some]
      exact ⟨hi, by omega, h2⟩

lemma buildInlineSqlLines_bounds (lines : List String) :
    ∀ e ∈ buildInlineSqlLines lines, e.line < lines.length := by
  intro e he
  have hM : e ∈ inlineLogPart lines ++ inlineHeurPart lines :=
    (List.perm_insertionSort leLine _).mem_iff.mp he
  rcases List.mem_append.mp hM with h | h
  · obtain ⟨e0, he0, rfl⟩ := List.mem_map.mp h
    exact collectLogLines_bounds lines e0 (List.mem_filter.mp he0).1
  · obtain ⟨item, hitem, rfl⟩ := List.mem_map.mp h
    obtain ⟨i, hi, hf⟩ := mem_filterMapRange.mp (List.mem_filter.mp hitem).1
    have hline : item.line = i := collectInlineSqlLines_line_eq hf
    show item.line < lines.length
    omega

/-- Claim C8: every entity in the parse result with a `line` field satisfies
`0 ≤ line < length lines` (0 ≤ is inherent in `Nat`), and every entity with
an `endLine` field additionally satisfies `line ≤ endLine < length lines` —
across header lines, systemInfo, env/DLL sections and entries, sqlDumps and
rows, journalSections and rows, journalHierarchyTraces and rows,
accessChecks, workflowHandlers, pomStats, endSessions, truncated, logLines
and inlineSqlLines. -/
theorem line_bounds_invariant (text : String) :
    (∀ hd, (parseTeamcenterLog text).header = some hd →
      hd.line < (parseTeamcenterLog text).lines.length ∧
      ∀ hl ∈ hd.lines, hl.line < (parseTeamcenterLog text).lines.length) ∧
    (∀ e ∈ (parseTeamcenterLog text).systemInfo,
      e.line < (parseTeamcenterLog text).lines.length) ∧
    (∀ s ∈ (parseTeamcenterLog text).envSections,
      s.line < (parseTeamcenterLog text).lines.length ∧
      ∀ en ∈ s.entries, en.line < (parseTeamcenterLog text).lines.length) ∧
    (∀ s ∈ (parseTeamcenterLog text).dllSections,
      s.line < (parseTeamcenterLog text).lines.length ∧
      ∀ en ∈ s.entries, en.line < (parseTeamcenterLog text).lines.length) ∧
    (∀ d ∈ (parseTeamcenterLog text).sqlDumps,
      d.line < (parseTeamcenterLog text).lines.length ∧ d.line ≤ d.endLine ∧
      d.endLine < (parseTeamcenterLog text).lines.length ∧
      ∀ row ∈ d.rows, row.line < (parseTeamcenterLog text).lines.length) ∧
    (∀ s ∈ (parseTeamcenterLog text).journalSections,
      s.line < (parseTeamcenterLog text).lines.length ∧ s.line ≤ s.endLine ∧
      s.endLine < (parseTeamcenterLog text).lines.length ∧
      ∀ row ∈ s.rows, row.line < (parseTeamcenterLog text).lines.length) ∧
    (∀ tr ∈ (parseTeamcenterLog text).journalHierarchyTraces,
      tr.line < (parseTeamcenterLog text).lines.length ∧ tr.line ≤ tr.endLine ∧
      tr.endLine < (parseTeamcenterLog text).lines.length ∧
      ∀ row ∈ tr.rows, row.line < (parseTeamcenterLog text).lines.length) ∧
    (∀ a ∈ (parseTeamcenterLog text).accessChecks,
      a.line < (parseTeamcenterLog text).lines.length) ∧
    (∀ w ∈ (parseTeamcenterLog text).workflowHandlers,
      w.line < (parseTeamcenterLog text).lines.length ∧ w.line ≤ w.endLine ∧
      w.endLine < (parseTeamcenterLog text).lines.length) ∧
    (∀ m ∈ (parseTeamcenterLog text).pomStats,
      m.line < (parseTeamcenterLog text).lines.length) ∧
    (∀ m ∈ (parseTeamcenterLog text).endSessions,
      m.line < (parseTeamcenterLog text).lines.length) ∧
    (∀ m ∈ (parseTeamcenterLog text).truncated,
      m.line < (parseTeamcenterLog text).lines.length) ∧
    (∀ l ∈ (parseTeamcenterLog text).logLines,
      l.line < (parseTeamcenterLog text).lines.length) ∧
    (∀ e ∈ (parseTeamcenterLog text).inlineSqlLines,
      e.line < (parseTeamcenterLog text).lines.length) := by
  refine ⟨?_, ?_, ?_, ?_, ?_, ?_, ?_, ?_, ?_, ?_, ?_, ?_, ?_, ?_⟩
  · exact fun hd h => collectHeader_bounds h
  · exact collectSystemInfo_bounds (splitLines text)
  · exact collectEnvSections_bounds (splitLines text)
  · exact collectDllSections_bounds (splitLines text)
  · intro d hd
    obtain ⟨h1, h2, h3, h4⟩ :=
      collectSqlAux_bounds (splitLines text) (splitLines text).length 0 d hd
    exact ⟨h1, h2, h3, h4⟩
  · exact collectJournalSections_bounds (splitLines text)
  · intro tr htr
    obtain ⟨i, hi, rfl⟩ := traceAux_mem (splitLines text) (splitLines text).length 0 tr htr
    obtain ⟨h1, h2, h3, h4⟩ := buildTrace_bounds (splitLines text) hi
    exact ⟨by rw [h1]; exact hi, h2, h3, h4⟩
  · exact collectAccessChecks_bounds (splitLines text)
  · exact collectWorkflowHandlers_bounds (splitLines text)
  · exact collectPomStats_bounds (splitLines text)
  · exact collectEndSessions_bounds (splitLines text)
  · exact collectTruncated_bounds (splitLines text)
  · exact collectLogLines_bounds (splitLines text)
  · exact buildInlineSqlLines_bounds (splitLines text)

/-- Witness for C8: the single access-check line of a one-line input sits
strictly below the line count. -/
theorem line_bounds_invariant_witness :
    ({ line := 0, raw := "AM_check_priv(WRITE) on obj", mode := "WRITE",
       target := "obj" } : AccessCheck).line <
      (parseTeamcenterLog "AM_check_priv(WRITE) on obj").lines.length :=
  (line_bounds_invariant "AM_check_priv(WRITE) on obj").2.2.2.2.2.2.2.1
    { line := 0, raw := "AM_check_priv(WRITE) on obj", mode := "WRITE", target := "obj" }
    (by decide)

end TCSyslog
